import Mathlib

/-!
# CryptoNight v0 digest engine: verifying the core against its specification

Shallow embedding of the repository sources:

* src/u64p.rs    — the 16-byte pair type U64p and its arithmetic
* src/lib.rs     — the legacy byte-level engine (scratch_mul, scratch_add,
                   to_scratch_pad_address, main_loop, register setup)
* src/aes/mod.rs — portable AES primitives, key schedule, explode / main loop /
                   implode engine
* src/aesni.rs   — the hardware-accelerated engine (AES-NI and SSE models)

Bytes are modelled as Nat (the wrapping points of the u8/u64/u128 machine
arithmetic carry an explicit mod 2^w); byte buffers as List Nat in memory
order (little endian).
-/

namespace CryptoNight

/-- Little-endian integer value of a byte list (transmute of a byte array to
an unsigned integer). -/
def leVal : List Nat → Nat
  | [] => 0
  | b :: rest => b + 256 * leVal rest

/-- The n-byte little-endian representation of a machine integer (the store
transmute; takes the value mod 2^(8n) as the hardware store does). -/
def leBytes : Nat → Nat → List Nat
  | 0, _ => []
  | n + 1, x => x % 256 :: leBytes n (x / 256)

/-- Read l[i], defaulting to 0 out of bounds. -/
def lg (l : List Nat) (i : Nat) : Nat := l.getD i 0

/-- Read the slice l[i .. i+n]. -/
def readRange (l : List α) (i n : Nat) : List α :=
  (l.drop i).take n

/-- Write the slice v at offset i, as in l[i .. i+v.len()].copy_from_slice(v). -/
def writeRange (l : List α) (i : Nat) (v : List α) : List α :=
  l.take i ++ v ++ l.drop (i + v.length)

/-- Rust slice::chunks_exact n: the successive length-n chunks, remainder
dropped. -/
def chunksExact (n : Nat) (l : List α) : List (List α) :=
  if h : 0 < n ∧ n ≤ l.length then
    l.take n :: chunksExact n (l.drop n)
  else []
termination_by l.length
decreasing_by
  simp only [List.length_drop]
  omega

/-- Rust slice::chunks_exact_mut n with loop body f: each exact chunk replaced
by f of it, the remainder left in place. -/
def mapChunksExact (n : Nat) (f : List α → List α) (l : List α) : List α :=
  ((chunksExact n l).map f).flatten ++ l.drop (l.length / n * n)

/-- aes::xor — in-place xor of a byte slice with a key slice: pairwise for the
zipped length, the rest of the block unchanged. -/
def xorBytes (block key : List Nat) : List Nat :=
  block.zipWith (· ^^^ ·) key ++ block.drop key.length

/-- src/u64p.rs: struct U64p(u64, u64) — two 64-bit lanes occupying 16
contiguous bytes, lane0 at bytes 0..8, lane1 at bytes 8..16 (little endian). -/
structure U64p where
  lane0 : Nat
  lane1 : Nat
deriving DecidableEq

instance : Inhabited U64p := ⟨⟨0, 0⟩⟩

namespace U64p

/-- impl From<&[u8]> for U64p: reinterpret 16 bytes as the two lanes. -/
def ofBytes (bytes : List Nat) : U64p :=
  ⟨leVal (readRange bytes 0 8), leVal (readRange bytes 8 8)⟩

/-- AsRef<[u8]>: the 16-byte view of the pair. -/
def toBytes (p : U64p) : List Nat :=
  leBytes 8 p.lane0 ++ leBytes 8 p.lane1

/-- impl From<U64p> for usize: the scratch pad block index derived from
lane 0. -/
def toUsize (p : U64p) : Nat :=
  (p.lane0 &&& 0x1FFFF0) / 16

/-- impl Add: lane-wise wrapping 64-bit addition. -/
def add (x y : U64p) : U64p :=
  ⟨(x.lane0 + y.lane0) % 2 ^ 64, (x.lane1 + y.lane1) % 2 ^ 64⟩

/-- impl Mul: the 128-bit product of the two lane-0 values; the
(r >> 64) as u64 cast lands in lane0, the r as u64 cast in lane1. -/
def mul (x y : U64p) : U64p :=
  ⟨((x.lane0 * y.lane0) >>> 64) % 2 ^ 64, (x.lane0 * y.lane0) % 2 ^ 64⟩

/-- impl BitXor: lane-wise xor. -/
def xor (x y : U64p) : U64p :=
  ⟨x.lane0 ^^^ y.lane0, x.lane1 ^^^ y.lane1⟩

end U64p

namespace Lib

/-- src/lib.rs to_u128: transmute of a 16-byte block to u128 (little endian). -/
def to_u128 (a : List Nat) : Nat := leVal a

/-- src/lib.rs to_scratch_pad_address: lowest 21 bits of the block value with
the low 4 bits zeroed — a BYTE address into the scratch pad. -/
def to_scratch_pad_address (a : List Nat) : Nat :=
  to_u128 a &&& 0x1FFFF0

/-- src/lib.rs scratch_mul: u128 product of the two masked low lanes,
transmuted back to 16 bytes — so the LOW word of the product occupies
bytes 0..8 and the HIGH word bytes 8..16. -/
def scratch_mul (a b : List Nat) : List Nat :=
  leBytes 16 ((to_u128 a &&& 0xFFFFFFFFFFFFFFFF) * (to_u128 b &&& 0xFFFFFFFFFFFFFFFF))

/-- src/lib.rs scratch_add: lane-wise wrapping u64 addition on the [u64; 2]
view of the two blocks. -/
def scratch_add (a b : List Nat) : List Nat :=
  leBytes 8 ((leVal (readRange a 0 8) + leVal (readRange b 0 8)) % 2 ^ 64) ++
  leBytes 8 ((leVal (readRange a 8 8) + leVal (readRange b 8 8)) % 2 ^ 64)

end Lib

namespace Aesni

/-- _mm_extract_epi64(a, 0) as u64: the little-endian value of bytes 0..8. -/
def extract_epi64_0 (a : List Nat) : Nat := leVal (readRange a 0 8)

/-- _mm_extract_epi32(a, 0) as u32: the little-endian value of bytes 0..4. -/
def extract_epi32_0 (a : List Nat) : Nat := leVal (readRange a 0 4)

/-- src/aesni.rs cn_8byte_mul: wide product of the two low lanes;
_mm_set_epi64x(c as i64, (c >> 64) as i64) stores its second argument in the
low lane, so the HIGH word of the product lands in bytes 0..8 and the LOW
word in bytes 8..16. -/
def cn_8byte_mul (a b : List Nat) : List Nat :=
  leBytes 8 ((extract_epi64_0 a * extract_epi64_0 b) >>> 64) ++
  leBytes 8 (extract_epi64_0 a * extract_epi64_0 b)

/-- src/aesni.rs cn_8byte_add: _mm_add_epi64, lane-wise wrapping 64-bit
addition. -/
def cn_8byte_add (a b : List Nat) : List Nat :=
  leBytes 8 (leVal (readRange a 0 8) + leVal (readRange b 0 8)) ++
  leBytes 8 (leVal (readRange a 8 8) + leVal (readRange b 8 8))

/-- src/aesni.rs to_sp_index: the low 32 bits of the vector, masked to 21 bits
and divided by size_of::<__m128i>() = 16. -/
def to_sp_index (a : List Nat) : Nat :=
  (extract_epi32_0 a &&& 0x1FFFFF) / 16

end Aesni

namespace Aes

/-- src/aes/mod.rs gmul2 — branch-free doubling in GF(2^8):
h = !((a >> 7).wrapping_sub(1)) selects 0xFF exactly when the top bit of the
byte is set, and the result is (a << 1) ^ (0x1B & h) on u8. -/
def gmul2 (a : Nat) : Nat :=
  ((a <<< 1) % 256) ^^^ (0x1B &&& (255 ^^^ (((a >>> 7) + 255) % 256)))

/-- Multiplication by the generator 3 of GF(2^8) (x·2 ⊕ x), used only to model
the log/antilog tables below. -/
def gmul3 (a : Nat) : Nat := gmul2 a ^^^ a

/-- Modelled from the spec: src/aes/constants.rs (the mod constants of
src/aes/mod.rs) is not under src/. Per the spec the antilog table holds the
powers of the generator 3 of GF(2^8) (the standard Rijndael table). -/
def ANTI_LOG_LOOKUP : List Nat :=
  (List.range 256).map (fun i => gmul3^[i] 1)

/-- Modelled from the spec: src/aes/constants.rs is not under src/. The log
table is the discrete log base 3 in GF(2^8), the inverse of the antilog table
(entry 0 is never read by the code). -/
def LOG_LOOKUP : List Nat :=
  (List.range 256).map (fun b => (List.range 256).findIdx (fun i => gmul3^[i] 1 == b))

/-- src/aes/mod.rs multiplicative_inverse. -/
def multiplicative_inverse (b : Nat) : Nat :=
  if b ≤ 1 then b
  else ANTI_LOG_LOOKUP.getD (255 - LOG_LOOKUP.getD b 0) 0

/-- u8::rotate_left k for k in 1..8. -/
def rotl8 (b k : Nat) : Nat :=
  ((b <<< k) ||| (b >>> (8 - k))) % 256

/-- src/aes/mod.rs s_box. -/
def s_box (c : Nat) : Nat :=
  let b := multiplicative_inverse c
  b ^^^ rotl8 b 1 ^^^ rotl8 b 2 ^^^ rotl8 b 3 ^^^ rotl8 b 4 ^^^ 0x63

/-- SubBytes. -/
def sub_bytes (block : List Nat) : List Nat := block.map s_box

/-- ShiftRows, the source's in-place swap sequence threaded explicitly. -/
def shift_rows (block : List Nat) : List Nat :=
  let tmp := lg block 1
  let b1 := block.set 1 (lg block 5)
  let b2 := b1.set 5 (lg b1 9)
  let b3 := b2.set 9 (lg b2 13)
  let b4 := b3.set 13 tmp
  let b5 := (b4.set 2 (lg b4 10)).set 10 (lg b4 2)
  let b6 := (b5.set 6 (lg b5 14)).set 14 (lg b5 6)
  let tmp2 := lg b6 15
  let b7 := b6.set 15 (lg b6 11)
  let b8 := b7.set 11 (lg b7 7)
  let b9 := b8.set 7 (lg b8 3)
  b9.set 3 tmp2

/-- mix_column on one 4-byte column (the source copies the column into a and
its doubling into b before writing). -/
def mix_column (slice : List Nat) : List Nat :=
  let a := slice
  let b := slice.map gmul2
  (List.range 4).map (fun i =>
    lg b i ^^^ lg a ((i + 3) % 4) ^^^ lg a ((i + 2) % 4) ^^^ lg a ((i + 1) % 4) ^^^
      lg b ((i + 1) % 4))

/-- MixColumns: mix_column on each 4-byte column. -/
def mix_columns (block : List Nat) : List Nat :=
  mapChunksExact 4 mix_column block

/-- src/aes/mod.rs aes_round: SubBytes, ShiftRows, MixColumns, AddRoundKey. -/
def aes_round (block round_key : List Nat) : List Nat :=
  xorBytes (mix_columns (shift_rows (sub_bytes block))) round_key

/-- src/aes/mod.rs schedule_core. -/
def schedule_core (new_key : List Nat) (rcon : Nat) : List Nat :=
  let r := sub_bytes (new_key.rotateLeft 1)
  r.set 0 (lg r 0 ^^^ rcon)

/-- The derive_key loop from the given offset up, threading buffer and rcon. -/
def derive_key_go (buf : List Nat) (offset rcon : Nat) : List Nat :=
  if h : 160 ≤ offset then buf
  else
    let finished := buf.take offset
    let next0 := readRange finished (offset - 4) 4
    let next1 :=
      if offset % 32 == 0 then schedule_core next0 rcon
      else if offset % 32 == 16 then sub_bytes next0
      else next0
    let rcon1 := if offset % 32 == 0 then gmul2 rcon else rcon
    let next2 := xorBytes next1 (finished.drop (offset - 32))
    derive_key_go (writeRange buf offset next2) (offset + 4) rcon1
termination_by 160 - offset
decreasing_by omega

/-- src/aes/mod.rs derive_key: expand a 32-byte seed into the 160-byte buffer
of 10 round keys. -/
def derive_key (main : List Nat) : List Nat :=
  derive_key_go (main.take 32 ++ List.replicate 128 0) 32 1

/-- Ten AES rounds (all round keys in order) applied to each 16-byte block of
a 128-byte group — the two inner loops of init_scratchpad / finalize_state. -/
def encrypt_blocks (keys : List (List Nat)) (blocks : List Nat) : List Nat :=
  mapChunksExact 16 (fun block => keys.foldl aes_round block) blocks

/-- The successive 128-byte chunks written by init_scratchpad: the working
blocks are encrypted once more before every chunk and persist across chunks. -/
def explode_chunks (keys : List (List Nat)) (blocks : List Nat) : Nat → List (List Nat)
  | 0 => []
  | n + 1 =>
    let blocks1 := encrypt_blocks keys blocks
    blocks1 :: explode_chunks keys blocks1 n

/-- src/aes/mod.rs init_scratchpad (the textually identical function also
appears in src/lib.rs): derive the explode keys from state[0..32], seed eight
working blocks from state[64..192], then fill every 128-byte chunk. -/
def init_scratchpad (keccac scratchpad : List Nat) : List Nat :=
  let round_keys_buffer := derive_key (keccac.take 32)
  let blocks := readRange keccac 64 128
  (explode_chunks (chunksExact 16 round_keys_buffer) blocks (scratchpad.length / 128)).flatten
    ++ scratchpad.drop (scratchpad.length / 128 * 128)

/-- Modelled from the spec: the crate-level ROUNDS constant referenced by
src/aes/mod.rs and src/aesni.rs lives in a lib.rs revision that is not under
src/; the spec fixes the main loop at exactly 524288 iterations, and the
legacy src/lib.rs main_loop hard-codes the same literal. -/
def ROUNDS : Nat := 524288

/-- The U64p view of one aes_round: scratchpad[address].as_mut() mixed under
a.as_ref() as the round key. -/
def aes_round_u (p k : U64p) : U64p :=
  U64p.ofBytes (aes_round p.toBytes k.toBytes)

/-- First transfer of a src/aes/mod.rs main_loop iteration. -/
def first_transfer (a b : U64p) (sp : List U64p) : U64p × U64p × List U64p :=
  let address := a.toUsize
  let sp1 := sp.set address (aes_round_u (sp.getD address default) a)
  let tmp := b
  let b1 := sp1.getD address default
  let sp2 := sp1.set address (U64p.xor (sp1.getD address default) tmp)
  (a, b1, sp2)

/-- Second transfer of a src/aes/mod.rs main_loop iteration: tmp is
a + b·cell, the register a becomes cell XOR tmp and the cell becomes tmp. -/
def second_transfer (a b : U64p) (sp : List U64p) : U64p × U64p × List U64p :=
  let address := b.toUsize
  let tmp := U64p.add a (U64p.mul b (sp.getD address default))
  let a1 := U64p.xor (sp.getD address default) tmp
  let sp1 := sp.set address tmp
  (a1, b, sp1)

/-- One full iteration of the main loop. -/
def main_step (s : U64p × U64p × List U64p) : U64p × U64p × List U64p :=
  let s1 := first_transfer s.1 s.2.1 s.2.2
  second_transfer s1.1 s1.2.1 s1.2.2

/-- The loop counter of main_loop. -/
def main_loop_go : Nat → U64p × U64p × List U64p → U64p × U64p × List U64p
  | 0, s => s
  | n + 1, s => main_loop_go n (main_step s)

/-- src/aes/mod.rs main_loop: ROUNDS iterations over the [U64p] view of the
scratchpad; only the scratchpad survives the function. -/
def main_loop (a b : U64p) (sp : List U64p) : List U64p :=
  (main_loop_go ROUNDS (a, b, sp)).2.2

/-- One iteration with the source's bounds-checked indexing made explicit:
none models an out-of-bounds scratchpad[address] panic. -/
def main_step_checked (s : U64p × U64p × List U64p) :
    Option (U64p × U64p × List U64p) := do
  let (a, b, sp) := s
  let address := a.toUsize
  let c0 ← sp[address]?
  let sp1 := sp.set address (aes_round_u c0 a)
  let tmp := b
  let b1 ← sp1[address]?
  let c1 ← sp1[address]?
  let sp2 := sp1.set address (U64p.xor c1 tmp)
  let address2 := b1.toUsize
  let d ← sp2[address2]?
  let tmp2 := U64p.add a (U64p.mul b1 d)
  let a1 := U64p.xor d tmp2
  let sp3 := sp2.set address2 tmp2
  pure (a1, b1, sp3)

/-- The bounds-checked loop counter. -/
def main_loop_checked_go : Nat → U64p × U64p × List U64p →
    Option (U64p × U64p × List U64p)
  | 0, s => some s
  | n + 1, s => do main_loop_checked_go n (← main_step_checked s)

/-- src/aes/mod.rs finalize_state: fold the scratchpad back into
state[64..192] under the implode keys from state[32..64]. -/
def finalize_state (keccac scratchpad : List Nat) : List Nat :=
  let round_keys_buffer := derive_key (readRange keccac 32 32)
  let final0 := readRange keccac 64 128
  let final1 := (chunksExact 128 scratchpad).foldl
    (fun fb chunk => encrypt_blocks (chunksExact 16 round_keys_buffer) (xorBytes fb chunk))
    final0
  writeRange keccac 64 final1

/-- The [U64p] view of a byte buffer (slice_cast::cast_mut). -/
def cast_u64p (sp : List Nat) : List U64p :=
  (chunksExact 16 sp).map U64p.ofBytes

/-- The bytes underlying a [U64p] view once it is dropped (a length not
divisible by 16 keeps its byte tail). -/
def uncast_u64p (spU : List U64p) (sp : List Nat) : List Nat :=
  (spU.map U64p.toBytes).flatten ++ sp.drop (sp.length / 16 * 16)

/-- src/aes/mod.rs digest_main. -/
def digest_main (keccac scratchpad : List Nat) : List Nat :=
  let sp1 := init_scratchpad keccac scratchpad
  let a := U64p.xor (U64p.ofBytes (readRange keccac 0 16))
    (U64p.ofBytes (readRange keccac 32 16))
  let b := U64p.xor (U64p.ofBytes (readRange keccac 16 16))
    (U64p.ofBytes (readRange keccac 48 16))
  let sp2 := uncast_u64p (main_loop a b (cast_u64p sp1)) sp1
  finalize_state keccac sp2

end Aes

namespace Lib

/-- First transfer of the legacy src/lib.rs main_loop (byte addressed). -/
def first_transfer (a b sp : List Nat) : List Nat × List Nat × List Nat :=
  let address := to_scratch_pad_address a
  let sp1 := writeRange sp address (Aes.aes_round (readRange sp address 16) a)
  let tmp := b
  let b1 := readRange sp1 address 16
  let sp2 := writeRange sp1 address (xorBytes (readRange sp1 address 16) tmp)
  (a, b1, sp2)

/-- Second transfer of the legacy src/lib.rs main_loop: note that the
register a receives the PRE-write cell and the cell receives cell XOR tmp. -/
def second_transfer (a b sp : List Nat) : List Nat × List Nat × List Nat :=
  let address := to_scratch_pad_address b
  let c := readRange sp address 16
  let tmp := scratch_add a (scratch_mul b c)
  let a1 := readRange sp address 16
  let sp1 := writeRange sp address (xorBytes (readRange sp address 16) tmp)
  (a1, b, sp1)

/-- One full iteration of the legacy main loop. -/
def main_step (s : List Nat × List Nat × List Nat) : List Nat × List Nat × List Nat :=
  let s1 := first_transfer s.1 s.2.1 s.2.2
  second_transfer s1.1 s1.2.1 s1.2.2

/-- The legacy loop counter. -/
def main_loop_go : Nat → (List Nat × List Nat × List Nat) →
    List Nat × List Nat × List Nat
  | 0, s => s
  | n + 1, s => main_loop_go n (main_step s)

/-- src/lib.rs CryptoNight::main_loop: 524288 hard-coded iterations over the
byte-sliced scratchpad. -/
def main_loop (a b sp : List Nat) : List Nat :=
  (main_loop_go 524288 (a, b, sp)).2.2

/-- src/lib.rs fixed_result register setup: multizip over
a.iter_mut().chain(b.iter_mut()), &keccac and &keccac[32..] xors the first 32
state bytes with the next 32 and splits the result into a and b. -/
def init_ab (keccac : List Nat) : List Nat × List Nat :=
  let xs := (keccac.take 32).zipWith (· ^^^ ·) (keccac.drop 32)
  (xs.take 16, xs.drop 16)

/-- One legacy iteration with the source's bounds-checked byte slicing made
explicit: none models a scratch_pad[address..end] panic. -/
def main_step_checked (s : List Nat × List Nat × List Nat) :
    Option (List Nat × List Nat × List Nat) :=
  let (a, b, sp) := s
  let address := to_scratch_pad_address a
  if address + 16 ≤ sp.length then
    let sp1 := writeRange sp address (Aes.aes_round (readRange sp address 16) a)
    let tmp := b
    let b1 := readRange sp1 address 16
    let sp2 := writeRange sp1 address (xorBytes (readRange sp1 address 16) tmp)
    let address2 := to_scratch_pad_address b1
    if address2 + 16 ≤ sp2.length then
      let c := readRange sp2 address2 16
      let tmp2 := scratch_add a (scratch_mul b1 c)
      let a1 := readRange sp2 address2 16
      let sp3 := writeRange sp2 address2 (xorBytes (readRange sp2 address2 16) tmp2)
      some (a1, b1, sp3)
    else none
  else none

/-- The bounds-checked legacy loop counter. -/
def main_loop_checked_go : Nat → List Nat × List Nat × List Nat →
    Option (List Nat × List Nat × List Nat)
  | 0, s => some s
  | n + 1, s => do main_loop_checked_go n (← main_step_checked s)

/-- The four finalist digest crates imported by src/lib.rs. -/
inductive FinalistCall where
  | Blake256
  | Groestl256
  | Jh256
  | Skein256
deriving DecidableEq

/-- src/lib.rs CryptoNight::hash_final_state, reduced to which external digest
crate is invoked: the match on state[0] & 3 selects Blake256, Groestl256,
Jh256 or skein_hash::Skein256; none models the unreachable fallback arm. -/
def hash_final_state_choice (state : List Nat) : Option FinalistCall :=
  match lg state 0 &&& 3 with
  | 0 => some FinalistCall.Blake256
  | 1 => some FinalistCall.Groestl256
  | 2 => some FinalistCall.Jh256
  | 3 => some FinalistCall.Skein256
  | _ => none

/-- src/lib.rs CryptoNight::hash_final_state with the four external finalist
digests as black-box byte-in/byte-out parameters, in the order of the crate
names in the source: the selected digest consumes the whole state. -/
def hash_final_state (blake256 groestl256 jh256 skein256 : List Nat → List Nat)
    (state : List Nat) : Option (List Nat) :=
  match lg state 0 &&& 3 with
  | 0 => some (blake256 state)
  | 1 => some (groestl256 state)
  | 2 => some (jh256 state)
  | 3 => some (skein256 state)
  | _ => none

end Lib

namespace Aesni

/-- Model of the AESENC instruction per its published specification:
ShiftRows, SubBytes, MixColumns, then xor with the round key (on the 16-byte
little-endian view of the vector). -/
def mm_aesenc (block key : List Nat) : List Nat :=
  xorBytes (Aes.mix_columns (Aes.sub_bytes (Aes.shift_rows block))) key

/-- _mm_xor_si128. -/
def mm_xor (a b : List Nat) : List Nat := a.zipWith (· ^^^ ·) b

/-- _mm_slli_si128 by 4: byte shift of the 128-bit value, four zero bytes
entering at the low end. -/
def mm_slli4 (a : List Nat) : List Nat := [0, 0, 0, 0] ++ a.take 12

/-- _mm_shuffle_epi32 with imm 0xFF: broadcast dword 3. -/
def mm_shuffle_ff (a : List Nat) : List Nat :=
  readRange a 12 4 ++ readRange a 12 4 ++ readRange a 12 4 ++ readRange a 12 4

/-- _mm_shuffle_epi32 with imm 0xAA: broadcast dword 2. -/
def mm_shuffle_aa (a : List Nat) : List Nat :=
  readRange a 8 4 ++ readRange a 8 4 ++ readRange a 8 4 ++ readRange a 8 4

/-- Model of the AESKEYGENASSIST instruction per its published specification:
dwords SubWord(X1), RotWord(SubWord(X1)) xor rcon, SubWord(X3),
RotWord(SubWord(X3)) xor rcon, with RotWord the one-byte rotation in memory
order and rcon entering the low byte. -/
def mm_aeskeygenassist (a : List Nat) (rcon : Nat) : List Nat :=
  let x1 := readRange a 4 4
  let x3 := readRange a 12 4
  Aes.sub_bytes x1 ++ xorBytes ((Aes.sub_bytes x1).rotateLeft 1) [rcon] ++
  Aes.sub_bytes x3 ++ xorBytes ((Aes.sub_bytes x3).rotateLeft 1) [rcon]

/-- src/aesni.rs key_256_assist_1 (temp2 is already the keygenassist
result). -/
def key_256_assist_1 (temp1 temp2 : List Nat) : List Nat :=
  let temp2a := mm_shuffle_ff temp2
  let temp4a := mm_slli4 temp1
  let t1a := mm_xor temp1 temp4a
  let temp4b := mm_slli4 temp4a
  let t1b := mm_xor t1a temp4b
  let temp4c := mm_slli4 temp4b
  let t1c := mm_xor t1b temp4c
  mm_xor t1c temp2a

/-- src/aesni.rs key_256_assist_2. -/
def key_256_assist_2 (temp1 temp3 : List Nat) : List Nat :=
  let temp4 := mm_aeskeygenassist temp1 0
  let temp2 := mm_shuffle_aa temp4
  let temp4a := mm_slli4 temp3
  let t3a := mm_xor temp3 temp4a
  let temp4b := mm_slli4 temp4a
  let t3b := mm_xor t3a temp4b
  let temp4c := mm_slli4 temp4b
  let t3c := mm_xor t3b temp4c
  mm_xor t3c temp2

/-- src/aesni.rs derive_key: the ten round keys from the two seed vectors,
following Intel's figure 26 unrolling. -/
def derive_key (temp1 temp3 : List Nat) : List (List Nat) :=
  let k2 := key_256_assist_1 temp1 (mm_aeskeygenassist temp3 0x01)
  let k3 := key_256_assist_2 k2 temp3
  let k4 := key_256_assist_1 k2 (mm_aeskeygenassist k3 0x02)
  let k5 := key_256_assist_2 k4 k3
  let k6 := key_256_assist_1 k4 (mm_aeskeygenassist k5 0x04)
  let k7 := key_256_assist_2 k6 k5
  let k8 := key_256_assist_1 k6 (mm_aeskeygenassist k7 0x08)
  let k9 := key_256_assist_2 k8 k7
  [temp1, temp3, k2, k3, k4, k5, k6, k7, k8, k9]

/-- The inner double loop of the accelerated init_scratchpad / finalize_state:
ten aesenc rounds on one vector. -/
def encrypt_block (keys : List (List Nat)) (block : List Nat) : List Nat :=
  keys.foldl mm_aesenc block

/-- The successive 8-vector chunks written by the accelerated
init_scratchpad. -/
def init_chunks (keys : List (List Nat)) (blocks : List (List Nat)) :
    Nat → List (List (List Nat))
  | 0 => []
  | n + 1 =>
    let blocks1 := blocks.map (encrypt_block keys)
    blocks1 :: init_chunks keys blocks1 n

/-- src/aesni.rs init_scratchpad on the vector views: keys from keccac[0],
keccac[1], working blocks keccac[4..12]. -/
def init_scratchpad (keccac scratchpad : List (List Nat)) : List (List Nat) :=
  let keys := derive_key (keccac.getD 0 []) (keccac.getD 1 [])
  let blocks := readRange keccac 4 8
  (init_chunks keys blocks (scratchpad.length / 8)).flatten
    ++ scratchpad.drop (scratchpad.length / 8 * 8)

/-- One iteration of the accelerated main loop (src/aesni.rs main_loop). -/
def main_step (s : List Nat × List Nat × List (List Nat)) :
    List Nat × List Nat × List (List Nat) :=
  let (a, b, sp) := s
  let address := to_sp_index a
  let sp1 := sp.set address (mm_aesenc (sp.getD address []) a)
  let tmp := b
  let b1 := sp1.getD address []
  let sp2 := sp1.set address (mm_xor (sp1.getD address []) tmp)
  let address2 := to_sp_index b1
  let tmp2 := cn_8byte_add a (cn_8byte_mul b1 (sp2.getD address2 []))
  let a1 := mm_xor (sp2.getD address2 []) tmp2
  (a1, b1, sp2.set address2 tmp2)

/-- The accelerated loop counter. -/
def main_loop_go : Nat → List Nat × List Nat × List (List Nat) →
    List Nat × List Nat × List (List Nat)
  | 0, s => s
  | n + 1, s => main_loop_go n (main_step s)

/-- src/aesni.rs main_loop: registers from keccac[0] ^ keccac[2] and
keccac[1] ^ keccac[3], ROUNDS iterations over the full (a, b, scratchpad)
state; the caller reads back only the scratchpad component. -/
def main_loop (keccac scratchpad : List (List Nat)) :
    List Nat × List Nat × List (List Nat) :=
  main_loop_go Aes.ROUNDS
    (mm_xor (keccac.getD 0 []) (keccac.getD 2 []),
     mm_xor (keccac.getD 1 []) (keccac.getD 3 []), scratchpad)

/-- src/aesni.rs finalize_state on the vector views: keys from keccac[2],
keccac[3]; keccac[4..12] absorbs every 8-vector scratchpad chunk. -/
def finalize_state (keccac scratchpad : List (List Nat)) : List (List Nat) :=
  let keys := derive_key (keccac.getD 2 []) (keccac.getD 3 [])
  let final0 := keccac.drop 4
  let final1 := (chunksExact final0.length scratchpad).foldl
    (fun fb chunk => fb.zipWith (fun block sp_slice =>
      encrypt_block keys (mm_xor block sp_slice)) chunk)
    final0
  keccac.take 4 ++ final1

/-- src/aesni.rs digest_main: cast keccac[..192] and the scratchpad to
vectors, run the engine, and read the state bytes back. -/
def digest_main (keccac scratchpad : List Nat) : List Nat :=
  let keccacV := chunksExact 16 (keccac.take 192)
  let spV := chunksExact 16 scratchpad
  let spV1 := init_scratchpad keccacV spV
  let spV2 := (main_loop keccacV spV1).2.2
  let keccacV2 := finalize_state keccacV spV2
  keccacV2.flatten ++ keccac.drop 192

end Aesni

/-- The common word-level step of both key schedules, where the offset is a
multiple of 32: from the previous 32 key bytes and the round constant, the
next 16 bytes are four chained word xors seeded by schedule_core of the last
word. -/
def nextKeyA (prev32 : List Nat) (rcon : Nat) : List Nat :=
  let n0 := xorBytes (Aes.schedule_core (readRange prev32 28 4) rcon) (readRange prev32 0 4)
  let n1 := xorBytes n0 (readRange prev32 4 4)
  let n2 := xorBytes n1 (readRange prev32 8 4)
  let n3 := xorBytes n2 (readRange prev32 12 4)
  n0 ++ n1 ++ n2 ++ n3

/-- The common word-level step of both key schedules at offsets that are 16
mod 32: as nextKeyA but seeded by SubBytes of the last word, without
rotation or round constant. -/
def nextKeyB (prev32 : List Nat) : List Nat :=
  let n0 := xorBytes (Aes.sub_bytes (readRange prev32 28 4)) (readRange prev32 0 4)
  let n1 := xorBytes n0 (readRange prev32 4 4)
  let n2 := xorBytes n1 (readRange prev32 8 4)
  let n3 := xorBytes n2 (readRange prev32 12 4)
  n0 ++ n1 ++ n2 ++ n3

/-- A well-formed 16-byte vector value. -/
def GoodBlock (b : List Nat) : Prop := b.length = 16 ∧ ∀ x ∈ b, x < 256

/-- A well-formed accelerated main-loop state over a 2 MiB scratchpad. -/
def GoodState (s : List Nat × List Nat × List (List Nat)) : Prop :=
  GoodBlock s.1 ∧ GoodBlock s.2.1 ∧ s.2.2.length = 131072 ∧
    ∀ blk ∈ s.2.2, GoodBlock blk

/-! ## Basic facts about the byte-level model -/

theorem leBytes_length (n x : Nat) : (leBytes n x).length = n := by
  induction n generalizing x with
  | zero => rfl
  | succ n ih => simp [leBytes, ih]

theorem pow256_eq (n : Nat) : (256 : Nat) ^ n = 2 ^ (8 * n) := by
  rw [show (256 : Nat) = 2 ^ 8 by norm_num, ← pow_mul]

theorem leVal_leBytes (n x : Nat) : leVal (leBytes n x) = x % 256 ^ n := by
  induction n generalizing x with
  | zero => simp [leBytes, leVal, Nat.mod_one]
  | succ n ih =>
    have h256 : (256 : Nat) ^ (n + 1) = 256 * 256 ^ n := by ring
    rw [leBytes, leVal, ih, h256, Nat.mod_mul]

theorem leVal_append (a b : List Nat) :
    leVal (a ++ b) = leVal a + 256 ^ a.length * leVal b := by
  induction a with
  | nil => simp [leVal]
  | cons x rest ih =>
    simp only [List.cons_append, leVal, List.length_cons, List.append_eq]
    rw [ih]
    ring

theorem leVal_lt (l : List Nat) (h : ∀ b ∈ l, b < 256) :
    leVal l < 256 ^ l.length := by
  induction l with
  | nil => simp [leVal]
  | cons x rest ih =>
    have hx : x < 256 := h x (List.mem_cons_self x rest)
    have hr : leVal rest < 256 ^ rest.length :=
      ih fun b hb => h b (List.mem_cons_of_mem x hb)
    have : 256 ^ (x :: rest).length = 256 * 256 ^ rest.length := by
      simp [List.length_cons]; ring
    rw [leVal, this]
    nlinarith

theorem leVal_take (l : List Nat) (n : Nat) (h : ∀ b ∈ l, b < 256) :
    leVal (l.take n) = leVal l % 256 ^ n := by
  have hsplit : leVal l = leVal (l.take n) + 256 ^ (l.take n).length * leVal (l.drop n) := by
    rw [← leVal_append, List.take_append_drop]
  have htlt : leVal (l.take n) < 256 ^ n := by
    have hb : ∀ b ∈ l.take n, b < 256 := fun b hb => h b (List.mem_of_mem_take hb)
    have := leVal_lt (l.take n) hb
    have hlen : (l.take n).length ≤ n := by simp
    exact lt_of_lt_of_le this (Nat.pow_le_pow_right (by norm_num) hlen)
  rcases le_or_lt n l.length with hn | hn
  · have hlen : (l.take n).length = n := by simp [hn]
    rw [hsplit, hlen, Nat.add_mul_mod_self_left, Nat.mod_eq_of_lt htlt]
  · have hdrop : l.drop n = [] := List.drop_eq_nil_of_le (le_of_lt hn)
    have htake : l.take n = l := List.take_of_length_le (le_of_lt hn)
    rw [htake, Nat.mod_eq_of_lt]
    rw [← htake]; exact htlt

theorem leVal_drop (l : List Nat) (n : Nat) (h : ∀ b ∈ l, b < 256) :
    leVal (l.drop n) = leVal l / 256 ^ n := by
  have hsplit : leVal l = leVal (l.take n) + 256 ^ (l.take n).length * leVal (l.drop n) := by
    rw [← leVal_append, List.take_append_drop]
  have htlt : leVal (l.take n) < 256 ^ n := by
    have hb : ∀ b ∈ l.take n, b < 256 := fun b hb => h b (List.mem_of_mem_take hb)
    have := leVal_lt (l.take n) hb
    have hlen : (l.take n).length ≤ n := by simp
    exact lt_of_lt_of_le this (Nat.pow_le_pow_right (by norm_num) hlen)
  rcases le_or_lt n l.length with hn | hn
  · have hlen : (l.take n).length = n := by simp [hn]
    rw [hsplit, hlen, Nat.add_mul_div_left _ _ (Nat.pos_pow_of_pos n (by norm_num)),
      Nat.div_eq_of_lt htlt, Nat.zero_add]
  · have hdrop : l.drop n = [] := List.drop_eq_nil_of_le (le_of_lt hn)
    have htake : l.take n = l := List.take_of_length_le (le_of_lt hn)
    rw [hdrop, Nat.div_eq_of_lt]
    · rfl
    · rw [← htake]; exact htlt

theorem leBytes_leVal (l : List Nat) (h : ∀ b ∈ l, b < 256) :
    leBytes l.length (leVal l) = l := by
  induction l with
  | nil => rfl
  | cons x rest ih =>
    have hx : x < 256 := h x (List.mem_cons_self x rest)
    have hr : ∀ b ∈ rest, b < 256 := fun b hb => h b (List.mem_cons_of_mem x hb)
    have e1 : (x + 256 * leVal rest) % 256 = x := by omega
    have e2 : (x + 256 * leVal rest) / 256 = leVal rest := by omega
    simp only [List.length_cons, leBytes, leVal, e1, e2, ih hr]

/-! ## Bit-level helpers -/

theorem xor_mod_two_pow (u v n : Nat) :
    (u ^^^ v) % 2 ^ n = u % 2 ^ n ^^^ v % 2 ^ n := by
  rw [← Nat.and_pow_two_sub_one_eq_mod, ← Nat.and_pow_two_sub_one_eq_mod,
    ← Nat.and_pow_two_sub_one_eq_mod]
  exact Nat.and_xor_distrib_right

theorem xor_div_two_pow (u v n : Nat) :
    (u ^^^ v) / 2 ^ n = u / 2 ^ n ^^^ v / 2 ^ n := by
  induction n generalizing u v with
  | zero => simp
  | succ n ih =>
    rw [pow_succ, ← Nat.div_div_eq_div_mul, ← Nat.div_div_eq_div_mul,
      ← Nat.div_div_eq_div_mul, ih, Nat.xor_div_two]

theorem and_div_two_pow (u v n : Nat) :
    (u &&& v) / 2 ^ n = u / 2 ^ n &&& v / 2 ^ n := by
  induction n generalizing u v with
  | zero => simp
  | succ n ih =>
    rw [pow_succ, ← Nat.div_div_eq_div_mul, ← Nat.div_div_eq_div_mul,
      ← Nat.div_div_eq_div_mul, ih, Nat.and_div_two]

theorem leVal_zipWith_xor (a b : List Nat) (hlen : a.length = b.length)
    (ha : ∀ x ∈ a, x < 256) (hb : ∀ x ∈ b, x < 256) :
    leVal (a.zipWith (· ^^^ ·) b) = leVal a ^^^ leVal b := by
  induction a generalizing b with
  | nil =>
    cases b with
    | nil => rfl
    | cons y ys => simp at hlen
  | cons x xs ih =>
    cases b with
    | nil => simp at hlen
    | cons y ys =>
      have hx : x < 256 := ha x (List.mem_cons_self x xs)
      have hy : y < 256 := hb y (List.mem_cons_self y ys)
      have hxs : ∀ z ∈ xs, z < 256 := fun z hz => ha z (List.mem_cons_of_mem x hz)
      have hys : ∀ z ∈ ys, z < 256 := fun z hz => hb z (List.mem_cons_of_mem y hz)
      have hlen2 : xs.length = ys.length := by simpa using hlen
      simp only [List.zipWith_cons_cons, leVal, ih ys hlen2 hxs hys]
      have hmod : (x + 256 * leVal xs) ^^^ (y + 256 * leVal ys) =
          ((x + 256 * leVal xs) ^^^ (y + 256 * leVal ys)) % 2 ^ 8 +
          2 ^ 8 * (((x + 256 * leVal xs) ^^^ (y + 256 * leVal ys)) / 2 ^ 8) :=
        (Nat.mod_add_div _ _).symm
      rw [hmod, xor_mod_two_pow, xor_div_two_pow]
      have e1 : (x + 256 * leVal xs) % 2 ^ 8 = x := by
        rw [show (2 : Nat) ^ 8 = 256 by norm_num]; omega
      have e2 : (y + 256 * leVal ys) % 2 ^ 8 = y := by
        rw [show (2 : Nat) ^ 8 = 256 by norm_num]; omega
      have e3 : (x + 256 * leVal xs) / 2 ^ 8 = leVal xs := by
        rw [show (2 : Nat) ^ 8 = 256 by norm_num]; omega
      have e4 : (y + 256 * leVal ys) / 2 ^ 8 = leVal ys := by
        rw [show (2 : Nat) ^ 8 = 256 by norm_num]; omega
      rw [e1, e2, e3, e4]
      ring

theorem readRange_zero (l : List α) (n : Nat) : readRange l 0 n = l.take n := by
  simp [readRange]

theorem leBytes_split (m n x : Nat) :
    leBytes (m + n) x = leBytes m x ++ leBytes n (x / 256 ^ m) := by
  induction m generalizing x with
  | zero => simp [leBytes]
  | succ m ih =>
    have hadd : m + 1 + n = (m + n) + 1 := by omega
    rw [hadd, leBytes, leBytes, ih, List.cons_append]
    have : x / 256 / 256 ^ m = x / 256 ^ (m + 1) := by
      rw [Nat.div_div_eq_div_mul, ← pow_succ']
    rw [this]

theorem leBytes_take (m n x : Nat) (h : m ≤ n) :
    (leBytes n x).take m = leBytes m x := by
  have := leBytes_split m (n - m) x
  rw [show m + (n - m) = n by omega] at this
  rw [this, List.take_left' (leBytes_length m x)]

theorem leBytes_drop (m n x : Nat) (h : m ≤ n) :
    (leBytes n x).drop m = leBytes (n - m) (x / 256 ^ m) := by
  have := leBytes_split m (n - m) x
  rw [show m + (n - m) = n by omega] at this
  rw [this, List.drop_left' (leBytes_length m x)]

/-! ## Mask arithmetic for the scratchpad address derivations -/

theorem mask_div16 (v : Nat) : (v &&& 0x1FFFF0) / 16 = v / 16 % 2 ^ 17 := by
  rw [show (16 : Nat) = 2 ^ 4 by norm_num, and_div_two_pow,
    show (0x1FFFF0 : Nat) / 2 ^ 4 = 2 ^ 17 - 1 by norm_num,
    Nat.and_pow_two_sub_one_eq_mod]

theorem mask_mod16 (v : Nat) : (v &&& 0x1FFFF0) % 16 = 0 := by
  rw [show (16 : Nat) = 2 ^ 4 by norm_num, ← Nat.and_pow_two_sub_one_eq_mod,
    Nat.and_assoc, show (0x1FFFF0 &&& (2 ^ 4 - 1) : Nat) = 0 by decide, Nat.and_zero]

theorem mask21_div16 (v : Nat) : (v &&& 0x1FFFFF) / 16 = v / 16 % 2 ^ 17 := by
  rw [show (0x1FFFFF : Nat) = 2 ^ 21 - 1 by norm_num, Nat.and_pow_two_sub_one_eq_mod,
    show (2 : Nat) ^ 21 = 16 * 2 ^ 17 by norm_num, Nat.mod_mul]
  omega

theorem mod_pow_div16 (v k : Nat) (h : 4 ≤ k) :
    v % 2 ^ k / 16 = v / 16 % 2 ^ (k - 4) := by
  have hk : (2 : Nat) ^ k = 16 * 2 ^ (k - 4) := by
    rw [show (16 : Nat) = 2 ^ 4 by norm_num, ← pow_add]
    congr 1
    omega
  rw [hk, Nat.mod_mul]
  omega

theorem leVal_take_lt (x : List Nat) (n : Nat) (hxb : ∀ b ∈ x, b < 256) :
    leVal (x.take n) < 2 ^ (8 * n) := by
  have hb : ∀ b ∈ x.take n, b < 256 := fun b hb => hxb b (List.mem_of_mem_take hb)
  have h1 := leVal_lt _ hb
  have hlen : (x.take n).length ≤ n := by simp
  calc leVal (x.take n) < 256 ^ (x.take n).length := h1
    _ ≤ 256 ^ n := Nat.pow_le_pow_right (by norm_num) hlen
    _ = 2 ^ (8 * n) := pow256_eq n

/-! ## Claims about the pair multiply (C1, C9) -/

/-- Claim C1, amended: for 16-byte inputs with p the 128-bit product of the
two low (bytes 0..8) lanes, the U64p multiply and the AES-NI cn_8byte_mul
place the HIGH 64 bits of p in lane 0 (bytes 0..8) and the LOW 64 bits in
lane 1 (bytes 8..16); the legacy src/lib.rs scratch_mul, also used by that
revision's main loop, instead places the LOW word in lane 0 and the HIGH
word in lane 1. -/
theorem claim_C1 (x y : List Nat) (hx : x.length = 16) (hy : y.length = 16)
    (hxb : ∀ b ∈ x, b < 256) (hyb : ∀ b ∈ y, b < 256) :
    (U64p.mul (U64p.ofBytes x) (U64p.ofBytes y)).lane0
        = leVal (x.take 8) * leVal (y.take 8) / 2 ^ 64 ∧
    (U64p.mul (U64p.ofBytes x) (U64p.ofBytes y)).lane1
        = leVal (x.take 8) * leVal (y.take 8) % 2 ^ 64 ∧
    leVal ((Aesni.cn_8byte_mul x y).take 8)
        = leVal (x.take 8) * leVal (y.take 8) / 2 ^ 64 ∧
    leVal ((Aesni.cn_8byte_mul x y).drop 8)
        = leVal (x.take 8) * leVal (y.take 8) % 2 ^ 64 ∧
    leVal ((Lib.scratch_mul x y).take 8)
        = leVal (x.take 8) * leVal (y.take 8) % 2 ^ 64 ∧
    leVal ((Lib.scratch_mul x y).drop 8)
        = leVal (x.take 8) * leVal (y.take 8) / 2 ^ 64 := by
  have hx8 := leVal_take_lt x 8 hxb
  have hy8 := leVal_take_lt y 8 hyb
  have hp : leVal (x.take 8) * leVal (y.take 8) < 2 ^ 64 * 2 ^ 64 :=
    Nat.mul_lt_mul'' hx8 hy8
  have hdiv_lt : leVal (x.take 8) * leVal (y.take 8) / 2 ^ 64 < 2 ^ 64 :=
    Nat.div_lt_of_lt_mul hp
  have h64 : (256 : Nat) ^ 8 = 2 ^ 64 := by norm_num
  have hmx : Lib.to_u128 x &&& 0xFFFFFFFFFFFFFFFF = leVal (x.take 8) := by
    rw [Lib.to_u128, show (0xFFFFFFFFFFFFFFFF : Nat) = 2 ^ 64 - 1 by norm_num,
      Nat.and_pow_two_sub_one_eq_mod, leVal_take x 8 hxb, h64]
  have hmy : Lib.to_u128 y &&& 0xFFFFFFFFFFFFFFFF = leVal (y.take 8) := by
    rw [Lib.to_u128, show (0xFFFFFFFFFFFFFFFF : Nat) = 2 ^ 64 - 1 by norm_num,
      Nat.and_pow_two_sub_one_eq_mod, leVal_take y 8 hyb, h64]
  refine ⟨?_, ?_, ?_, ?_, ?_, ?_⟩
  · simp only [U64p.mul, U64p.ofBytes, readRange_zero]
    rw [Nat.shiftRight_eq_div_pow, Nat.mod_eq_of_lt hdiv_lt]
  · simp only [U64p.mul, U64p.ofBytes, readRange_zero]
  · simp only [Aesni.cn_8byte_mul, Aesni.extract_epi64_0, readRange_zero]
    rw [List.take_left' (leBytes_length 8 _), leVal_leBytes, h64,
      Nat.shiftRight_eq_div_pow, Nat.mod_eq_of_lt hdiv_lt]
  · simp only [Aesni.cn_8byte_mul, Aesni.extract_epi64_0, readRange_zero]
    rw [List.drop_left' (leBytes_length 8 _), leVal_leBytes, h64]
  · simp only [Lib.scratch_mul, hmx, hmy]
    rw [leBytes_take 8 16 _ (by norm_num), leVal_leBytes, h64]
  · simp only [Lib.scratch_mul, hmx, hmy]
    rw [leBytes_drop 8 16 _ (by norm_num), leVal_leBytes, h64,
      Nat.mod_eq_of_lt hdiv_lt]

/-- Witness for claim C1 at the inputs 6 and 7 of the source's own multiply
unit test. -/
theorem claim_C1_witness :
    leVal ((Aesni.cn_8byte_mul (leBytes 16 6) (leBytes 16 7)).take 8)
      = leVal ((leBytes 16 6).take 8) * leVal ((leBytes 16 7).take 8) / 2 ^ 64 :=
  (claim_C1 (leBytes 16 6) (leBytes 16 7) (by decide) (by decide) (by decide)
    (by decide)).2.2.1

/-- Counterexample to claim C1 as stated: in the src/lib.rs implementation of
the multiply used by that revision's main loop, lane 0 of scratch_mul(6, 7)
holds 42, not the HIGH 64 bits (0) of the product. -/
theorem claim_C1_cex :
    ¬ leVal ((Lib.scratch_mul (leBytes 16 6) (leBytes 16 7)).take 8)
        = leVal ((leBytes 16 6).take 8) * leVal ((leBytes 16 7).take 8) / 2 ^ 64 := by
  decide

/-- Claim C9, amended: with low lanes 6 and 7, the U64p pair multiply (and the
AES-NI one) places 42 in the lane that holds the LOW word — lane 1, bytes
8..16 — and 0 in lane 0; only the legacy src/lib.rs scratch_mul places 42 in
lane 0 (bytes 0..8) as its unit test records. -/
theorem claim_C9 :
    U64p.mul ⟨6, 0⟩ ⟨7, 0⟩ = ⟨0, 42⟩ ∧
    Aesni.cn_8byte_mul (leBytes 16 6) (leBytes 16 7) = leBytes 8 0 ++ leBytes 8 42 ∧
    Lib.scratch_mul (leBytes 16 6) (leBytes 16 7) = leBytes 16 42 := by
  decide

/-- Counterexample to claim C9 as stated: the U64p pair multiply at low lanes
6 and 7 does not place 42 in lane 0 (bytes 0..8); it places 0 there. -/
theorem claim_C9_cex : ¬ (U64p.mul ⟨6, 0⟩ ⟨7, 0⟩).lane0 = 42 := by
  decide

/-! ## Claim about the scratchpad index derivations (C7) -/

/-- Claim C7: the scratchpad location derived from a 16-byte pair is
(x.lo &&& 0x1FFFF0) / 16 — the U64p usize conversion is exactly that block
index, the AES-NI to_sp_index (low 32 bits masked with 0x1FFFFF and divided
by 16) equals it for every input, and the legacy src/lib.rs byte address is
16 times it. -/
theorem claim_C7 (x : List Nat) (hx : x.length = 16) (hxb : ∀ b ∈ x, b < 256) :
    U64p.toUsize (U64p.ofBytes x) = (leVal (x.take 8) &&& 0x1FFFF0) / 16 ∧
    Aesni.to_sp_index x = (leVal (x.take 8) &&& 0x1FFFF0) / 16 ∧
    Lib.to_scratch_pad_address x = 16 * ((leVal (x.take 8) &&& 0x1FFFF0) / 16) := by
  have h8b : ∀ b ∈ x.take 8, b < 256 := fun b hb => hxb b (List.mem_of_mem_take hb)
  refine ⟨?_, ?_, ?_⟩
  · simp [U64p.toUsize, U64p.ofBytes, readRange_zero]
  · rw [Aesni.to_sp_index, Aesni.extract_epi32_0, readRange_zero, mask21_div16,
      mask_div16]
    have h4 : x.take 4 = (x.take 8).take 4 := by
      rw [List.take_take]
      norm_num
    rw [h4, leVal_take (x.take 8) 4 h8b, show (256 : Nat) ^ 4 = 2 ^ 32 by norm_num,
      mod_pow_div16 _ 32 (by norm_num)]
    exact Nat.mod_mod_of_dvd _ (pow_dvd_pow 2 (by norm_num))
  · rw [Lib.to_scratch_pad_address, Lib.to_u128, mask_div16]
    have hz := mask_mod16 (leVal x)
    have h16 : leVal x &&& 0x1FFFF0 = 16 * ((leVal x &&& 0x1FFFF0) / 16) := by
      omega
    rw [h16, mask_div16]
    congr 1
    rw [leVal_take x 8 hxb, show (256 : Nat) ^ 8 = 2 ^ 64 by norm_num,
      mod_pow_div16 _ 64 (by norm_num)]
    exact (Nat.mod_mod_of_dvd _ (pow_dvd_pow 2 (by norm_num))).symm

/-- Witness for claim C7 at a concrete 16-byte input. -/
theorem claim_C7_witness :
    Aesni.to_sp_index (leBytes 16 123456789123)
      = (leVal ((leBytes 16 123456789123).take 8) &&& 0x1FFFF0) / 16 :=
  (claim_C7 (leBytes 16 123456789123) (by decide) (by decide)).2.1

/-! ## Length preservation -/

theorem xorBytes_length (b k : List Nat) : (xorBytes b k).length = b.length := by
  simp [xorBytes]
  omega

theorem readRange_length (l : List α) (i n : Nat) :
    (readRange l i n).length = min n (l.length - i) := by
  simp [readRange]

theorem writeRange_length (l : List α) (i : Nat) (v : List α)
    (h : i + v.length ≤ l.length) : (writeRange l i v).length = l.length := by
  simp [writeRange]
  omega

theorem sub_bytes_length (b : List Nat) : (Aes.sub_bytes b).length = b.length := by
  simp [Aes.sub_bytes]

theorem shift_rows_length (b : List Nat) : (Aes.shift_rows b).length = b.length := by
  simp [Aes.shift_rows]

theorem mix_column_length (c : List Nat) : (Aes.mix_column c).length = 4 := by
  simp [Aes.mix_column]

theorem chunksExact_mem_length {n : Nat} {l c : List α}
    (hc : c ∈ chunksExact n l) : c.length = n := by
  induction l using chunksExact.induct n with
  | case1 l h ih =>
    rw [chunksExact, dif_pos h] at hc
    rcases List.mem_cons.mp hc with h1 | h1
    · subst h1
      simp [h.2]
    · exact ih h1
  | case2 l h =>
    rw [chunksExact, dif_neg h] at hc
    simp at hc

theorem chunksExact_length {n : Nat} (hn : 0 < n) (l : List α) :
    (chunksExact n l).length = l.length / n := by
  induction l using chunksExact.induct n with
  | case1 l h ih =>
    rw [chunksExact, dif_pos h, List.length_cons, ih,
      Nat.div_eq_sub_div hn h.2, List.length_drop]
  | case2 l h =>
    rw [chunksExact, dif_neg h]
    have : l.length < n := by
      rcases Nat.lt_or_ge l.length n with h1 | h1
      · exact h1
      · exact absurd ⟨hn, h1⟩ h
    rw [List.length_nil, Eq.comm, Nat.div_eq_of_lt this]

theorem flatten_length_const {n : Nat} {L : List (List α)}
    (h : ∀ c ∈ L, c.length = n) : L.flatten.length = n * L.length := by
  induction L with
  | nil => simp
  | cons c rest ih =>
    have hc : c.length = n := h c (List.mem_cons_self c rest)
    have hr := ih fun d hd => h d (List.mem_cons_of_mem c hd)
    simp [hc, hr]
    ring

theorem mapChunksExact_length {n : Nat} (hn : 0 < n) (f : List Nat → List Nat)
    (hf : ∀ c : List Nat, c.length = n → (f c).length = n) (l : List Nat) :
    (mapChunksExact n f l).length = l.length := by
  rw [mapChunksExact, List.length_append,
    flatten_length_const (n := n) (fun c hc => by
      rcases List.mem_map.mp hc with ⟨d, hd, rfl⟩
      exact hf d (chunksExact_mem_length hd)),
    List.length_map, chunksExact_length hn, List.length_drop]
  have h1 : l.length / n * n ≤ l.length := Nat.div_mul_le_self _ _
  have h2 : n * (l.length / n) = l.length / n * n := Nat.mul_comm _ _
  omega

theorem mix_columns_length (b : List Nat) : (Aes.mix_columns b).length = b.length := by
  rw [Aes.mix_columns]
  exact mapChunksExact_length (by norm_num) _ (fun c _ => mix_column_length c) b

theorem aes_round_length (b k : List Nat) : (Aes.aes_round b k).length = b.length := by
  rw [Aes.aes_round, xorBytes_length, mix_columns_length, shift_rows_length,
    sub_bytes_length]

/-! ## Claim C10: all scratchpad accesses stay in bounds -/

theorem toUsize_le (p : U64p) : U64p.toUsize p ≤ 131071 := by
  have h1 : p.lane0 &&& 0x1FFFF0 ≤ 0x1FFFF0 := Nat.and_le_right
  rw [U64p.toUsize]
  omega

theorem to_sp_index_le (x : List Nat) : Aesni.to_sp_index x ≤ 131071 := by
  have h1 : Aesni.extract_epi32_0 x &&& 0x1FFFFF ≤ 0x1FFFFF := Nat.and_le_right
  rw [Aesni.to_sp_index]
  omega

theorem to_scratch_pad_address_le (x : List Nat) :
    Lib.to_scratch_pad_address x + 16 ≤ 2 ^ 21 := by
  have h1 : Lib.to_u128 x &&& 0x1FFFF0 ≤ 0x1FFFF0 := Nat.and_le_right
  rw [Lib.to_scratch_pad_address]
  omega

theorem aes_step_checked_eq (a b : U64p) (sp : List U64p) (h : sp.length = 131072) :
    Aes.main_step_checked (a, b, sp) = some (Aes.main_step (a, b, sp)) ∧
    (Aes.main_step (a, b, sp)).2.2.length = 131072 := by
  have h1 : a.toUsize < sp.length := by
    have := toUsize_le a
    omega
  have g1 : sp[a.toUsize]? = some (sp.getD a.toUsize default) := by
    rw [List.getD_eq_getElem?_getD, List.getElem?_eq_getElem h1]
    rfl
  set sp1 := sp.set a.toUsize (Aes.aes_round_u (sp.getD a.toUsize default) a) with hsp1
  have hl1 : sp1.length = sp.length := List.length_set sp _ _
  have h2 : a.toUsize < sp1.length := by omega
  have g2 : sp1[a.toUsize]? = some (sp1.getD a.toUsize default) := by
    rw [List.getD_eq_getElem?_getD, List.getElem?_eq_getElem h2]
    rfl
  set b1 := sp1.getD a.toUsize default with hb1
  set sp2 := sp1.set a.toUsize (U64p.xor (sp1.getD a.toUsize default) b) with hsp2
  have hl2 : sp2.length = sp1.length := List.length_set _ _ _
  have h3 : b1.toUsize < sp2.length := by
    have := toUsize_le b1
    omega
  have g3 : sp2[b1.toUsize]? = some (sp2.getD b1.toUsize default) := by
    rw [List.getD_eq_getElem?_getD, List.getElem?_eq_getElem h3]
    rfl
  constructor
  · simp only [Aes.main_step_checked, Aes.main_step, Aes.first_transfer,
      Aes.second_transfer, ← hsp1, ← hb1, ← hsp2, g1, g2, g3,
      Option.bind_eq_bind, Option.some_bind, Option.pure_def]
  · simp only [Aes.main_step, Aes.first_transfer, Aes.second_transfer, ← hsp1,
      ← hb1, ← hsp2, List.length_set]
    omega

theorem aes_loop_checked_isSome (n : Nat) (s : U64p × U64p × List U64p)
    (h : s.2.2.length = 131072) : (Aes.main_loop_checked_go n s).isSome := by
  induction n generalizing s with
  | zero => rfl
  | succ n ih =>
    obtain ⟨a, b, sp⟩ := s
    obtain ⟨heq, hlen⟩ := aes_step_checked_eq a b sp h
    rw [Aes.main_loop_checked_go, heq]
    simp only [Option.bind_eq_bind, Option.some_bind]
    exact ih _ hlen

theorem lib_step_checked_eq (a b sp : List Nat) (h : sp.length = 2 ^ 21) :
    Lib.main_step_checked (a, b, sp) = some (Lib.main_step (a, b, sp)) ∧
    (Lib.main_step (a, b, sp)).2.2.length = 2 ^ 21 := by
  have ha := to_scratch_pad_address_le a
  set addr := Lib.to_scratch_pad_address a with haddr
  have hc1 : addr + 16 ≤ sp.length := by omega
  have hr1 : (Aes.aes_round (readRange sp addr 16) a).length = 16 := by
    rw [aes_round_length, readRange_length]
    omega
  set sp1 := writeRange sp addr (Aes.aes_round (readRange sp addr 16) a) with hsp1
  have hl1 : sp1.length = sp.length := writeRange_length _ _ _ (by rw [hr1]; omega)
  set b1 := readRange sp1 addr 16 with hb1
  have hr2 : (xorBytes (readRange sp1 addr 16) b).length = 16 := by
    rw [xorBytes_length, readRange_length]
    omega
  set sp2 := writeRange sp1 addr (xorBytes (readRange sp1 addr 16) b) with hsp2
  have hl2 : sp2.length = sp1.length := writeRange_length _ _ _ (by rw [hr2]; omega)
  have hb1a := to_scratch_pad_address_le b1
  set addr2 := Lib.to_scratch_pad_address b1 with haddr2
  have hc2 : addr2 + 16 ≤ sp2.length := by omega
  have hr3 : (xorBytes (readRange sp2 addr2 16)
      (Lib.scratch_add a (Lib.scratch_mul b1 (readRange sp2 addr2 16)))).length = 16 := by
    rw [xorBytes_length, readRange_length]
    omega
  constructor
  · simp only [Lib.main_step_checked, Lib.main_step, Lib.first_transfer,
      Lib.second_transfer, ← haddr, ← hsp1, ← hb1, ← hsp2, ← haddr2,
      if_pos hc1, if_pos hc2]
  · simp only [Lib.main_step, Lib.first_transfer, Lib.second_transfer,
      ← haddr, ← hsp1, ← hb1, ← hsp2, ← haddr2]
    rw [writeRange_length _ _ _ (by rw [hr3]; omega)]
    omega

theorem lib_loop_checked_isSome (n : Nat) (s : List Nat × List Nat × List Nat)
    (h : s.2.2.length = 2 ^ 21) : (Lib.main_loop_checked_go n s).isSome := by
  induction n generalizing s with
  | zero => rfl
  | succ n ih =>
    obtain ⟨a, b, sp⟩ := s
    obtain ⟨heq, hlen⟩ := lib_step_checked_eq a b sp h
    rw [Lib.main_loop_checked_go, heq]
    simp only [Option.bind_eq_bind, Option.some_bind]
    exact ih _ hlen

/-- Claim C10: every scratchpad index derived from a pair is at most 131071
(the legacy byte address at most 0x1FFFF0, so the 16-byte slice ends at or
before byte 2^21), and consequently the bounds-checked main loops of both
portable revisions succeed — no indexing panic — on a 2 MiB scratchpad, for
any number of iterations; the same index bound keeps the accelerated
backend's unchecked accesses inside the 131072-block buffer. -/
theorem claim_C10 :
    (∀ p : U64p, U64p.toUsize p ≤ 131071) ∧
    (∀ x : List Nat, Aesni.to_sp_index x ≤ 131071) ∧
    (∀ x : List Nat, Lib.to_scratch_pad_address x ≤ 0x1FFFF0 ∧
      Lib.to_scratch_pad_address x + 16 ≤ 2 ^ 21) ∧
    (∀ (n : Nat) (s : U64p × U64p × List U64p), s.2.2.length = 131072 →
      (Aes.main_loop_checked_go n s).isSome) ∧
    (∀ (n : Nat) (s : List Nat × List Nat × List Nat), s.2.2.length = 2 ^ 21 →
      (Lib.main_loop_checked_go n s).isSome) := by
  refine ⟨toUsize_le, to_sp_index_le, ?_, aes_loop_checked_isSome,
    lib_loop_checked_isSome⟩
  intro x
  have h := to_scratch_pad_address_le x
  constructor
  · omega
  · exact h

/-- Witness for claim C10: the portable checked main loop returns a result on
a concrete 2 MiB scratchpad, over the full 524288 iterations. -/
theorem claim_C10_witness :
    ((⟨0, 0⟩, ⟨0, 0⟩, List.replicate 131072 (U64p.mk 0 0)) :
        U64p × U64p × List U64p).2.2.length = 131072 ∧
    (Aes.main_loop_checked_go 524288
      (⟨0, 0⟩, ⟨0, 0⟩, List.replicate 131072 (U64p.mk 0 0))).isSome :=
  ⟨List.length_replicate _ _, claim_C10.2.2.2.1 524288 _ (List.length_replicate _ _)⟩

/-! ## Claim C2: the second transfer -/

theorem getD_set_self (l : List U64p) (i : Nat) (v : U64p) (h : i < l.length) :
    (l.set i v).getD i default = v := by
  rw [List.getD_eq_getElem?_getD, List.getElem?_set_self h]
  rfl

/-- Claim C2, amended: in the U64p engine (src/aes/mod.rs main_loop) the
second transfer behaves exactly as claimed — with addr2 derived from b and d
the pre-write cell value, t = add(a, mul(b, d)) goes INTO the cell and
d XOR t into the register a — and one main-loop iteration is the second
transfer applied after the first.  The legacy src/lib.rs main loop differs:
it sets a to d and writes d XOR t into the cell. -/
theorem claim_C2 (a b : U64p) (sp : List U64p) (h : sp.length = 131072) :
    (Aes.second_transfer a b sp).1 =
      U64p.xor (sp.getD b.toUsize default)
        (U64p.add a (U64p.mul b (sp.getD b.toUsize default))) ∧
    (Aes.second_transfer a b sp).2.2.getD b.toUsize default =
      U64p.add a (U64p.mul b (sp.getD b.toUsize default)) ∧
    Aes.main_step (a, b, sp) =
      Aes.second_transfer (Aes.first_transfer a b sp).1
        (Aes.first_transfer a b sp).2.1 (Aes.first_transfer a b sp).2.2 := by
  refine ⟨rfl, ?_, rfl⟩
  have hlt : b.toUsize < sp.length := by
    have := toUsize_le b
    omega
  exact getD_set_self sp _ _ hlt

/-- Witness for claim C2 on a concrete 2 MiB scratchpad. -/
theorem claim_C2_witness :
    (List.replicate 131072 (U64p.mk 0 0)).length = 131072 ∧
    (Aes.second_transfer ⟨1, 0⟩ ⟨2, 0⟩ (List.replicate 131072 (U64p.mk 0 0))).2.2.getD
        (U64p.toUsize ⟨2, 0⟩) default =
      U64p.add ⟨1, 0⟩ (U64p.mul ⟨2, 0⟩
        ((List.replicate 131072 (U64p.mk 0 0)).getD (U64p.toUsize ⟨2, 0⟩) default)) :=
  ⟨List.length_replicate _ _,
    (claim_C2 ⟨1, 0⟩ ⟨2, 0⟩ _ (List.length_replicate _ _)).2.1⟩

/-- Counterexample to claim C2 as stated: in the legacy src/lib.rs main loop
(whose second transfer is cited by the claim), with b = 0 so that addr2 = 0,
d the 16-byte cell (5, 0) and t = add(a, mul(b, d)) = (1, 0), the loop does
NOT set a to d XOR t and does NOT write t into the cell: a receives d and the
cell receives d XOR t. -/
theorem claim_C2_cex :
    ¬ ((Lib.second_transfer (leBytes 16 1) (leBytes 16 0) (leBytes 16 5)).1 =
        xorBytes (leBytes 16 5)
          (Lib.scratch_add (leBytes 16 1)
            (Lib.scratch_mul (leBytes 16 0) (leBytes 16 5))) ∧
      readRange (Lib.second_transfer (leBytes 16 1) (leBytes 16 0) (leBytes 16 5)).2.2
          (Lib.to_scratch_pad_address (leBytes 16 0)) 16 =
        Lib.scratch_add (leBytes 16 1)
          (Lib.scratch_mul (leBytes 16 0) (leBytes 16 5))) := by
  decide

/-! ## Claim C3: iteration count and register initialisation -/

theorem aes_loop_go_iterate (n : Nat) (s : U64p × U64p × List U64p) :
    Aes.main_loop_go n s = Aes.main_step^[n] s := by
  induction n generalizing s with
  | zero => rfl
  | succ n ih => rw [Aes.main_loop_go, ih, Function.iterate_succ_apply]

theorem lib_loop_go_iterate (n : Nat) (s : List Nat × List Nat × List Nat) :
    Lib.main_loop_go n s = Lib.main_step^[n] s := by
  induction n generalizing s with
  | zero => rfl
  | succ n ih => rw [Lib.main_loop_go, ih, Function.iterate_succ_apply]

theorem aes_main_loop_iterate (a b : U64p) (sp : List U64p) :
    Aes.main_loop a b sp = (Aes.main_step^[524288] (a, b, sp)).2.2 := by
  rw [Aes.main_loop, Aes.ROUNDS, aes_loop_go_iterate]

theorem lib_main_loop_iterate (a b sp : List Nat) :
    Lib.main_loop a b sp = (Lib.main_step^[524288] (a, b, sp)).2.2 := by
  rw [Lib.main_loop, lib_loop_go_iterate]

theorem xorBytes_eq_zipWith (x y : List Nat) (h : x.length ≤ y.length) :
    xorBytes x y = x.zipWith (· ^^^ ·) y := by
  rw [xorBytes, List.drop_eq_nil_of_le h, List.append_nil]

theorem zipWith_take_right (x y : List Nat) (n : Nat) (h : x.length ≤ n) :
    x.zipWith (· ^^^ ·) (y.take n) = x.zipWith (· ^^^ ·) y := by
  induction x generalizing y n with
  | nil => simp
  | cons c xs ih =>
    cases y with
    | nil => simp
    | cons d ys =>
      cases n with
      | zero => simp at h
      | succ n =>
        simp only [List.take_succ_cons, List.zipWith_cons_cons]
        rw [ih ys n (by simpa using h)]

theorem mem_readRange {c : Nat} {l : List Nat} {i n : Nat}
    (h : c ∈ readRange l i n) : c ∈ l :=
  List.mem_of_mem_drop (List.mem_of_mem_take h)

theorem readRange_length16 (l : List Nat) (i : Nat) (h : i + 16 ≤ l.length) :
    (readRange l i 16).length = 16 := by
  rw [readRange_length]
  omega

theorem ofBytes_xorBytes (x y : List Nat) (hx : x.length = 16) (hy : y.length = 16)
    (hxb : ∀ c ∈ x, c < 256) (hyb : ∀ c ∈ y, c < 256) :
    U64p.ofBytes (xorBytes x y) = U64p.xor (U64p.ofBytes x) (U64p.ofBytes y) := by
  have hz : xorBytes x y = x.zipWith (· ^^^ ·) y :=
    xorBytes_eq_zipWith x y (by omega)
  have htake : ∀ n : Nat, (x.zipWith (· ^^^ ·) y).drop n =
      (x.drop n).zipWith (· ^^^ ·) (y.drop n) := fun n => List.zipWith_distrib_drop
  have hbx : ∀ n : Nat, ∀ c ∈ x.drop n, c < 256 :=
    fun n c hc => hxb c (List.mem_of_mem_drop hc)
  have hby : ∀ n : Nat, ∀ c ∈ y.drop n, c < 256 :=
    fun n c hc => hyb c (List.mem_of_mem_drop hc)
  rw [U64p.ofBytes, U64p.ofBytes, U64p.ofBytes, U64p.xor, hz]
  simp only [readRange, List.drop_zero]
  congr 1
  · rw [List.take_zipWith,
      leVal_zipWith_xor _ _ (by simp [hx, hy]) (fun c hc => hxb c (List.mem_of_mem_take hc))
        (fun c hc => hyb c (List.mem_of_mem_take hc))]
  · rw [htake 8, List.take_zipWith,
      leVal_zipWith_xor _ _ (by simp [hx, hy])
        (fun c hc => (hbx 8) c (List.mem_of_mem_take hc))
        (fun c hc => (hby 8) c (List.mem_of_mem_take hc))]

/-- Claim C3: both main loops run exactly 524288 iterations of their step
function, and the registers are initialised as a = state[0..16] XOR
state[32..48] and b = state[16..32] XOR state[48..64] — byte-wise in the
legacy multizip setup of src/lib.rs fixed_result, and as the U64p xors of the
same slices inside src/aes/mod.rs digest_main. -/
theorem claim_C3 (k : List Nat) (hk : 64 ≤ k.length) (hb : ∀ c ∈ k, c < 256) :
    (∀ (a b : U64p) (sp : List U64p),
      Aes.main_loop a b sp = (Aes.main_step^[524288] (a, b, sp)).2.2) ∧
    (∀ a b sp : List Nat,
      Lib.main_loop a b sp = (Lib.main_step^[524288] (a, b, sp)).2.2) ∧
    Lib.init_ab k = (xorBytes (k.take 16) (readRange k 32 16),
      xorBytes (readRange k 16 16) (readRange k 48 16)) ∧
    (∀ sp : List Nat, Aes.digest_main k sp =
      (let sp1 := Aes.init_scratchpad k sp
       Aes.finalize_state k (Aes.uncast_u64p
        (Aes.main_loop (U64p.ofBytes (xorBytes (k.take 16) (readRange k 32 16)))
          (U64p.ofBytes (xorBytes (readRange k 16 16) (readRange k 48 16)))
          (Aes.cast_u64p sp1)) sp1))) := by
  refine ⟨aes_main_loop_iterate, lib_main_loop_iterate, ?_, ?_⟩
  · rw [Lib.init_ab]
    have hA : ((k.take 32).zipWith (· ^^^ ·) (k.drop 32)).take 16 =
        xorBytes (k.take 16) (readRange k 32 16) := by
      rw [xorBytes_eq_zipWith _ _ (by rw [readRange_length16 k 32 (by omega)]; simp)]
      rw [List.take_zipWith, List.take_take, readRange]
      norm_num
    have hB : ((k.take 32).zipWith (· ^^^ ·) (k.drop 32)).drop 16 =
        xorBytes (readRange k 16 16) (readRange k 48 16) := by
      rw [xorBytes_eq_zipWith _ _ (by
        rw [readRange_length16 k 48 (by omega), readRange_length16 k 16 (by omega)])]
      rw [List.zipWith_distrib_drop, List.drop_take, List.drop_drop, readRange, readRange,
        zipWith_take_right _ _ 16 (by simp)]
    rw [hA, hB]
  · intro sp
    have hx1 : (k.take 16).length = 16 := by simp; omega
    have hx2 : (readRange k 16 16).length = 16 := readRange_length16 k 16 (by omega)
    have hy1 : (readRange k 32 16).length = 16 := readRange_length16 k 32 (by omega)
    have hy2 : (readRange k 48 16).length = 16 := readRange_length16 k 48 (by omega)
    have hb1 : ∀ c ∈ k.take 16, c < 256 := fun c hc => hb c (List.mem_of_mem_take hc)
    have hb2 : ∀ c ∈ readRange k 16 16, c < 256 := fun c hc => hb c (mem_readRange hc)
    have hb3 : ∀ c ∈ readRange k 32 16, c < 256 := fun c hc => hb c (mem_readRange hc)
    have hb4 : ∀ c ∈ readRange k 48 16, c < 256 := fun c hc => hb c (mem_readRange hc)
    rw [Aes.digest_main]
    simp only [readRange_zero,
      ofBytes_xorBytes (k.take 16) (readRange k 32 16) hx1 hy1 hb1 hb3,
      ofBytes_xorBytes (readRange k 16 16) (readRange k 48 16) hx2 hy2 hb2 hb4]

/-- Witness for claim C3 on a concrete 200-byte state. -/
theorem claim_C3_witness :
    64 ≤ (List.replicate 200 7).length ∧
    Lib.init_ab (List.replicate 200 7) =
      (xorBytes ((List.replicate 200 7).take 16) (readRange (List.replicate 200 7) 32 16),
       xorBytes (readRange (List.replicate 200 7) 16 16)
         (readRange (List.replicate 200 7) 48 16)) :=
  ⟨by rw [List.length_replicate]; omega, (claim_C3 (List.replicate 200 7)
      (by rw [List.length_replicate]; omega)
      (fun c hc => by rw [List.eq_of_mem_replicate hc]; omega)).2.2.1⟩

/-! ## Claim C4: explode keeps the working blocks live across chunks -/

theorem foldl_aes_round_length (keys : List (List Nat)) (c : List Nat) :
    (keys.foldl Aes.aes_round c).length = c.length := by
  induction keys generalizing c with
  | nil => rfl
  | cons k rest ih => rw [List.foldl_cons, ih, aes_round_length]

theorem encrypt_blocks_length (keys : List (List Nat)) (blocks : List Nat) :
    (Aes.encrypt_blocks keys blocks).length = blocks.length := by
  rw [Aes.encrypt_blocks]
  exact mapChunksExact_length (by norm_num) _
    (fun c hc => by rw [foldl_aes_round_length]; exact hc) blocks

theorem explode_chunks_mem_length (keys : List (List Nat)) (n : Nat) :
    ∀ (blocks : List Nat), blocks.length = 128 →
    ∀ c ∈ Aes.explode_chunks keys blocks n, c.length = 128 := by
  induction n with
  | zero =>
    intro blocks hb c hc
    simp [Aes.explode_chunks] at hc
  | succ n ih =>
    intro blocks hb c hc
    rw [Aes.explode_chunks] at hc
    have h1 : (Aes.encrypt_blocks keys blocks).length = 128 := by
      rw [encrypt_blocks_length, hb]
    rcases List.mem_cons.mp hc with h | h
    · rw [h, h1]
    · exact ih _ h1 c h

theorem explode_chunks_getD (keys : List (List Nat)) (n : Nat) :
    ∀ (blocks : List Nat) (k : Nat), k < n →
    (Aes.explode_chunks keys blocks n).getD k [] =
      (Aes.encrypt_blocks keys)^[k + 1] blocks := by
  induction n with
  | zero =>
    intro blocks k hk
    omega
  | succ n ih =>
    intro blocks k hk
    rw [Aes.explode_chunks]
    cases k with
    | zero => rfl
    | succ k =>
      have h1 := ih (Aes.encrypt_blocks keys blocks) k (by omega)
      simp only [List.getD_cons_succ, h1, ← Function.iterate_succ_apply]

theorem chunksExact_flatten {n : Nat} (hn : 0 < n) (L : List (List α))
    (h : ∀ c ∈ L, c.length = n) : chunksExact n L.flatten = L := by
  induction L with
  | nil =>
    rw [List.flatten_nil, chunksExact, dif_neg]
    simp
    omega
  | cons c rest ih =>
    have hc : c.length = n := h c (List.mem_cons_self c rest)
    have hr := ih fun d hd => h d (List.mem_cons_of_mem c hd)
    rw [List.flatten_cons, chunksExact, dif_pos (by
      constructor
      · exact hn
      · rw [List.length_append, hc]; omega)]
    rw [List.take_left' hc, List.drop_left' hc, hr]

/-- Claim C4: on a 2 MiB scratchpad, explode produces 16384 chunks and the
k-th 128-byte chunk equals the (k+1)-fold ten-round AES encryption (keys
derived from state[0..32]) of the eight working blocks seeded from
state[64..192]: the blocks persist across chunks without being reset. -/
theorem claim_C4 (keccac sp : List Nat) (k : Nat) (hkec : 192 ≤ keccac.length)
    (hsp : sp.length = 2 ^ 21) (hk : k < 16384) :
    (chunksExact 128 (Aes.init_scratchpad keccac sp)).getD k [] =
      (Aes.encrypt_blocks (chunksExact 16 (Aes.derive_key (keccac.take 32))))^[k + 1]
        (readRange keccac 64 128) := by
  have hblocks : (readRange keccac 64 128).length = 128 := by
    rw [readRange_length]
    omega
  have hN : sp.length / 128 = 16384 := by
    rw [hsp]
    norm_num
  have hdrop : sp.drop (sp.length / 128 * 128) = [] := by
    apply List.drop_eq_nil_of_le
    rw [hN, hsp]
    norm_num
  rw [Aes.init_scratchpad, hdrop, List.append_nil, hN,
    chunksExact_flatten (by norm_num) _
      (explode_chunks_mem_length _ _ _ hblocks),
    explode_chunks_getD _ _ _ _ hk]

/-- Witness for claim C4 at chunk 0 of a concrete state and scratchpad. -/
theorem claim_C4_witness :
    192 ≤ (List.replicate 200 3).length ∧
    (chunksExact 128 (Aes.init_scratchpad (List.replicate 200 3)
        (List.replicate (2 ^ 21) 0))).getD 0 [] =
      (Aes.encrypt_blocks (chunksExact 16
          (Aes.derive_key ((List.replicate 200 3).take 32))))^[0 + 1]
        (readRange (List.replicate 200 3) 64 128) :=
  ⟨by rw [List.length_replicate]; omega, claim_C4 (List.replicate 200 3)
    (List.replicate (2 ^ 21) 0) 0 (by rw [List.length_replicate]; omega)
    (List.length_replicate _ _) (by omega)⟩

/-! ## Claim C8: the digest ignores the scratchpad's initial contents -/

theorem init_scratchpad_only_length (keccac sp1 sp2 : List Nat)
    (h1 : sp1.length = 2 ^ 21) (h2 : sp2.length = 2 ^ 21) :
    Aes.init_scratchpad keccac sp1 = Aes.init_scratchpad keccac sp2 := by
  rw [Aes.init_scratchpad, Aes.init_scratchpad, h1, h2,
    List.drop_eq_nil_of_le (by rw [h1]; norm_num),
    List.drop_eq_nil_of_le (by rw [h2]; norm_num)]

/-- Claim C8: for a fixed Keccak state and any two initial contents of the
2 MiB scratchpad, the whole engine (explode, main loop, implode) produces the
same final state — the buffer's previous contents never reach the output. -/
theorem claim_C8 (keccac sp1 sp2 : List Nat) (h1 : sp1.length = 2 ^ 21)
    (h2 : sp2.length = 2 ^ 21) :
    Aes.digest_main keccac sp1 = Aes.digest_main keccac sp2 := by
  have hinit := init_scratchpad_only_length keccac sp1 sp2 h1 h2
  rw [Aes.digest_main, Aes.digest_main, hinit]

/-- Witness for claim C8 with two concretely different initial buffers. -/
theorem claim_C8_witness :
    (List.replicate (2 ^ 21) 0).length = 2 ^ 21 ∧
    (List.replicate (2 ^ 21) 255).length = 2 ^ 21 ∧
    Aes.digest_main (List.replicate 200 1) (List.replicate (2 ^ 21) 0) =
      Aes.digest_main (List.replicate 200 1) (List.replicate (2 ^ 21) 255) :=
  ⟨List.length_replicate _ _, List.length_replicate _ _,
    claim_C8 (List.replicate 200 1) _ _ (List.length_replicate _ _)
      (List.length_replicate _ _)⟩

/-! ## Claim C6: the finalist dispatch -/

/-- Claim C6, evaluating the code at the failing inputs: whenever the
post-permutation state's first byte has low two bits 3, the src/lib.rs
dispatch invokes the function imported as skein_hash::Skein256 — the
Skein-256 digest, not Skein-512 truncated to 256 bits — on the whole state;
the other three arms select Blake-256, Groestl-256 and JH-256 as claimed. -/
theorem claim_C6 (blake256 groestl256 jh256 skein256 : List Nat → List Nat)
    (state : List Nat) :
    (lg state 0 &&& 3 = 3 →
      Lib.hash_final_state blake256 groestl256 jh256 skein256 state =
        some (skein256 state) ∧
      Lib.hash_final_state_choice state = some Lib.FinalistCall.Skein256) ∧
    (lg state 0 &&& 3 = 0 →
      Lib.hash_final_state blake256 groestl256 jh256 skein256 state =
        some (blake256 state)) ∧
    (lg state 0 &&& 3 = 1 →
      Lib.hash_final_state blake256 groestl256 jh256 skein256 state =
        some (groestl256 state)) ∧
    (lg state 0 &&& 3 = 2 →
      Lib.hash_final_state blake256 groestl256 jh256 skein256 state =
        some (jh256 state)) := by
  refine ⟨fun h => ?_, fun h => ?_, fun h => ?_, fun h => ?_⟩ <;>
    simp [Lib.hash_final_state, Lib.hash_final_state_choice, h]

/-- Witness for claim C6 at the concrete failing input with state[0] = 3. -/
theorem claim_C6_witness :
    Lib.hash_final_state id id id id (3 :: List.replicate 199 0) =
      some (id (3 :: List.replicate 199 0)) ∧
    Lib.hash_final_state_choice (3 :: List.replicate 199 0) =
      some Lib.FinalistCall.Skein256 :=
  (claim_C6 id id id id (3 :: List.replicate 199 0)).1 rfl

/-! ## The accelerated backend refines the portable engine (towards C5) -/

theorem length16_cases (l : List Nat) (h : l.length = 16) :
    ∃ b0 b1 b2 b3 b4 b5 b6 b7 b8 b9 b10 b11 b12 b13 b14 b15,
      l = [b0, b1, b2, b3, b4, b5, b6, b7, b8, b9, b10, b11, b12, b13, b14, b15] := by
  obtain ⟨b0, l, rfl⟩ := List.exists_of_length_succ l (by omega : l.length = 15 + 1)
  simp only [List.length_cons] at h
  obtain ⟨b1, l, rfl⟩ := List.exists_of_length_succ l (by omega : l.length = 14 + 1)
  simp only [List.length_cons] at h
  obtain ⟨b2, l, rfl⟩ := List.exists_of_length_succ l (by omega : l.length = 13 + 1)
  simp only [List.length_cons] at h
  obtain ⟨b3, l, rfl⟩ := List.exists_of_length_succ l (by omega : l.length = 12 + 1)
  simp only [List.length_cons] at h
  obtain ⟨b4, l, rfl⟩ := List.exists_of_length_succ l (by omega : l.length = 11 + 1)
  simp only [List.length_cons] at h
  obtain ⟨b5, l, rfl⟩ := List.exists_of_length_succ l (by omega : l.length = 10 + 1)
  simp only [List.length_cons] at h
  obtain ⟨b6, l, rfl⟩ := List.exists_of_length_succ l (by omega : l.length = 9 + 1)
  simp only [List.length_cons] at h
  obtain ⟨b7, l, rfl⟩ := List.exists_of_length_succ l (by omega : l.length = 8 + 1)
  simp only [List.length_cons] at h
  obtain ⟨b8, l, rfl⟩ := List.exists_of_length_succ l (by omega : l.length = 7 + 1)
  simp only [List.length_cons] at h
  obtain ⟨b9, l, rfl⟩ := List.exists_of_length_succ l (by omega : l.length = 6 + 1)
  simp only [List.length_cons] at h
  obtain ⟨b10, l, rfl⟩ := List.exists_of_length_succ l (by omega : l.length = 5 + 1)
  simp only [List.length_cons] at h
  obtain ⟨b11, l, rfl⟩ := List.exists_of_length_succ l (by omega : l.length = 4 + 1)
  simp only [List.length_cons] at h
  obtain ⟨b12, l, rfl⟩ := List.exists_of_length_succ l (by omega : l.length = 3 + 1)
  simp only [List.length_cons] at h
  obtain ⟨b13, l, rfl⟩ := List.exists_of_length_succ l (by omega : l.length = 2 + 1)
  simp only [List.length_cons] at h
  obtain ⟨b14, l, rfl⟩ := List.exists_of_length_succ l (by omega : l.length = 1 + 1)
  simp only [List.length_cons] at h
  obtain ⟨b15, l, rfl⟩ := List.exists_of_length_succ l (by omega : l.length = 0 + 1)
  simp only [List.length_cons] at h
  have hnil : l = [] := List.eq_nil_of_length_eq_zero (by omega)
  subst hnil
  exact ⟨b0, b1, b2, b3, b4, b5, b6, b7, b8, b9, b10, b11, b12, b13, b14, b15, rfl⟩

theorem sub_shift_comm (l : List Nat) (h : l.length = 16) :
    Aes.sub_bytes (Aes.shift_rows l) = Aes.shift_rows (Aes.sub_bytes l) := by
  obtain ⟨b0, b1, b2, b3, b4, b5, b6, b7, b8, b9, b10, b11, b12, b13, b14, b15, rfl⟩ :=
    length16_cases l h
  rfl

theorem mm_aesenc_eq (b k : List Nat) (h : b.length = 16) :
    Aesni.mm_aesenc b k = Aes.aes_round b k := by
  rw [Aesni.mm_aesenc, Aes.aes_round, sub_shift_comm b h]

/-! ## Byte bounds through the AES primitives -/

theorem gmul2_lt (a : Nat) : Aes.gmul2 a < 256 := by
  rw [Aes.gmul2]
  have h1 : (a <<< 1) % 256 < 2 ^ 8 := by
    have := Nat.mod_lt (a <<< 1) (y := 256) (by norm_num)
    omega
  have h2 : 0x1B &&& (255 ^^^ ((a >>> 7) + 255) % 256) < 2 ^ 8 := by
    have := Nat.and_le_left (n := 0x1B) (m := 255 ^^^ ((a >>> 7) + 255) % 256)
    omega
  have := Nat.xor_lt_two_pow h1 h2
  omega

theorem gmul3_lt (a : Nat) (h : a < 256) : Aes.gmul3 a < 256 := by
  rw [Aes.gmul3]
  have h1 : Aes.gmul2 a < 2 ^ 8 := by have := gmul2_lt a; omega
  have := Nat.xor_lt_two_pow h1 (show a < 2 ^ 8 by omega)
  omega

theorem gmul3_iterate_lt (i : Nat) : Aes.gmul3^[i] 1 < 256 := by
  induction i with
  | zero => norm_num
  | succ i ih =>
    rw [Function.iterate_succ_apply']
    exact gmul3_lt _ ih

theorem lg_lt (l : List Nat) (i : Nat) (h : ∀ x ∈ l, x < 256) : lg l i < 256 := by
  rw [lg, List.getD_eq_getElem?_getD]
  cases hx : l[i]? with
  | none => simp
  | some v =>
    have hv : v ∈ l := List.getElem?_mem hx
    simpa using h v hv

theorem anti_log_lt : ∀ x ∈ Aes.ANTI_LOG_LOOKUP, x < 256 := by
  intro x hx
  rw [Aes.ANTI_LOG_LOOKUP] at hx
  obtain ⟨i, _, rfl⟩ := List.mem_map.mp hx
  exact gmul3_iterate_lt i

theorem multiplicative_inverse_lt (b : Nat) : Aes.multiplicative_inverse b < 256 := by
  rw [Aes.multiplicative_inverse]
  split
  · omega
  · exact lg_lt _ _ anti_log_lt

theorem rotl8_lt (b k : Nat) : Aes.rotl8 b k < 256 := by
  rw [Aes.rotl8]
  exact Nat.mod_lt _ (by norm_num)

theorem s_box_lt (c : Nat) : Aes.s_box c < 256 := by
  rw [Aes.s_box]
  have hi : Aes.multiplicative_inverse c < 2 ^ 8 := by
    have := multiplicative_inverse_lt c
    omega
  have hr : ∀ k, Aes.rotl8 (Aes.multiplicative_inverse c) k < 2 ^ 8 := by
    intro k
    have := rotl8_lt (Aes.multiplicative_inverse c) k
    omega
  have h99 : (0x63 : Nat) < 2 ^ 8 := by norm_num
  have := Nat.xor_lt_two_pow (Nat.xor_lt_two_pow (Nat.xor_lt_two_pow
    (Nat.xor_lt_two_pow (Nat.xor_lt_two_pow hi (hr 1)) (hr 2)) (hr 3)) (hr 4)) h99
  omega

theorem sub_bytes_lt (b : List Nat) : ∀ x ∈ Aes.sub_bytes b, x < 256 := by
  intro x hx
  rw [Aes.sub_bytes] at hx
  obtain ⟨c, _, rfl⟩ := List.mem_map.mp hx
  exact s_box_lt c

theorem set_lt (l : List Nat) (i v : Nat) (hl : ∀ x ∈ l, x < 256) (hv : v < 256) :
    ∀ x ∈ l.set i v, x < 256 := by
  intro x hx
  rcases List.mem_or_eq_of_mem_set hx with h | h
  · exact hl x h
  · omega

theorem shift_rows_lt (block : List Nat) (h : ∀ x ∈ block, x < 256) :
    ∀ x ∈ Aes.shift_rows block, x < 256 := by
  rw [Aes.shift_rows]
  have h1 := set_lt block 1 (lg block 5) h (lg_lt _ _ h)
  have h2 := set_lt _ 5 _ h1 (lg_lt _ 9 h1)
  have h3 := set_lt _ 9 _ h2 (lg_lt _ 13 h2)
  have h4 := set_lt _ 13 (lg block 1) h3 (lg_lt _ 1 h)
  have h5a := set_lt _ 2 _ h4 (lg_lt _ 10 h4)
  have h5 := set_lt _ 10 _ h5a (lg_lt _ 2 h4)
  have h6a := set_lt _ 6 _ h5 (lg_lt _ 14 h5)
  have h6 := set_lt _ 14 _ h6a (lg_lt _ 6 h5)
  have h7 := set_lt _ 15 _ h6 (lg_lt _ 11 h6)
  have h8 := set_lt _ 11 _ h7 (lg_lt _ 7 h7)
  have h9 := set_lt _ 7 _ h8 (lg_lt _ 3 h8)
  exact set_lt _ 3 _ h9 (lg_lt _ 15 h6)

theorem mix_column_lt (c : List Nat) (h : ∀ x ∈ c, x < 256) :
    ∀ x ∈ Aes.mix_column c, x < 256 := by
  intro x hx
  rw [Aes.mix_column] at hx
  obtain ⟨i, _, rfl⟩ := List.mem_map.mp hx
  have hb : ∀ x ∈ c.map Aes.gmul2, x < 256 := by
    intro y hy
    obtain ⟨z, _, rfl⟩ := List.mem_map.mp hy
    exact gmul2_lt z
  have g1 : lg (c.map Aes.gmul2) i < 2 ^ 8 := by have := lg_lt _ i hb; omega
  have g2 : ∀ j, lg c j < 2 ^ 8 := by intro j; have := lg_lt c j h; omega
  have g3 : lg (c.map Aes.gmul2) ((i + 1) % 4) < 2 ^ 8 := by
    have := lg_lt _ ((i + 1) % 4) hb
    omega
  have := Nat.xor_lt_two_pow (Nat.xor_lt_two_pow (Nat.xor_lt_two_pow
    (Nat.xor_lt_two_pow g1 (g2 ((i + 3) % 4))) (g2 ((i + 2) % 4))) (g2 ((i + 1) % 4))) g3
  omega

theorem chunks_mem_mem {n : Nat} {l : List α} {c : List α} (hc : c ∈ chunksExact n l) :
    ∀ x ∈ c, x ∈ l := by
  induction l using chunksExact.induct n with
  | case1 l h ih =>
    rw [chunksExact, dif_pos h] at hc
    rcases List.mem_cons.mp hc with h1 | h1
    · intro x hx
      rw [h1] at hx
      exact List.mem_of_mem_take hx
    · intro x hx
      exact List.mem_of_mem_drop (ih h1 x hx)
  | case2 l h =>
    rw [chunksExact, dif_neg h] at hc
    simp at hc

theorem mapChunksExact_lt (n : Nat) (f : List Nat → List Nat) (l : List Nat)
    (hf : ∀ c, (∀ x ∈ c, x < 256) → ∀ x ∈ f c, x < 256)
    (hl : ∀ x ∈ l, x < 256) : ∀ x ∈ mapChunksExact n f l, x < 256 := by
  intro x hx
  rw [mapChunksExact] at hx
  rcases List.mem_append.mp hx with h | h
  · obtain ⟨fc, hfc, hxfc⟩ := List.mem_flatten.mp h
    obtain ⟨c, hc, rfl⟩ := List.mem_map.mp hfc
    exact hf c (fun y hy => hl y (chunks_mem_mem hc y hy)) x hxfc
  · exact hl x (List.mem_of_mem_drop h)

theorem mix_columns_lt (b : List Nat) (h : ∀ x ∈ b, x < 256) :
    ∀ x ∈ Aes.mix_columns b, x < 256 := by
  rw [Aes.mix_columns]
  exact mapChunksExact_lt 4 _ b mix_column_lt h

theorem zipWith_xor_lt : ∀ (a b : List Nat), (∀ x ∈ a, x < 256) →
    (∀ x ∈ b, x < 256) → ∀ x ∈ a.zipWith (· ^^^ ·) b, x < 256 := by
  intro a
  induction a with
  | nil => intro b _ _ x hx; simp at hx
  | cons c xs ih =>
    intro b ha hb x hx
    cases b with
    | nil => simp at hx
    | cons d ys =>
      rw [List.zipWith_cons_cons] at hx
      rcases List.mem_cons.mp hx with h | h
      · have hc : c < 2 ^ 8 := by have := ha c (List.mem_cons_self c xs); omega
        have hd : d < 2 ^ 8 := by have := hb d (List.mem_cons_self d ys); omega
        have := Nat.xor_lt_two_pow hc hd
        omega
      · exact ih ys (fun y hy => ha y (List.mem_cons_of_mem c hy))
          (fun y hy => hb y (List.mem_cons_of_mem d hy)) x h

theorem xorBytes_lt (b k : List Nat) (hb : ∀ x ∈ b, x < 256)
    (hk : ∀ x ∈ k, x < 256) : ∀ x ∈ xorBytes b k, x < 256 := by
  intro x hx
  rw [xorBytes] at hx
  rcases List.mem_append.mp hx with h | h
  · exact zipWith_xor_lt b k hb hk x h
  · exact hb x (List.mem_of_mem_drop h)

theorem aes_round_lt (b k : List Nat) (hk : ∀ x ∈ k, x < 256) :
    ∀ x ∈ Aes.aes_round b k, x < 256 := by
  rw [Aes.aes_round]
  exact xorBytes_lt _ _ (mix_columns_lt _ (shift_rows_lt _ (sub_bytes_lt b))) hk

theorem schedule_core_lt (w : List Nat) (rcon : Nat) (hr : rcon < 256) :
    ∀ x ∈ Aes.schedule_core w rcon, x < 256 := by
  rw [Aes.schedule_core]
  refine set_lt _ 0 _ (sub_bytes_lt _) ?_
  have h1 : lg (Aes.sub_bytes (w.rotateLeft 1)) 0 < 2 ^ 8 := by
    have := lg_lt _ 0 (sub_bytes_lt (w.rotateLeft 1))
    omega
  have := Nat.xor_lt_two_pow h1 (show rcon < 2 ^ 8 by omega)
  omega

theorem writeRange_lt (l v : List Nat) (i : Nat) (hl : ∀ x ∈ l, x < 256)
    (hv : ∀ x ∈ v, x < 256) : ∀ x ∈ writeRange l i v, x < 256 := by
  intro x hx
  rw [writeRange] at hx
  rcases List.mem_append.mp hx with h | h
  · rcases List.mem_append.mp h with h1 | h1
    · exact hl x (List.mem_of_mem_take h1)
    · exact hv x h1
  · exact hl x (List.mem_of_mem_drop h)

theorem derive_key_go_lt_aux : ∀ (n : Nat) (buf : List Nat) (offset rcon : Nat),
    160 ≤ offset + 4 * n → (∀ x ∈ buf, x < 256) → rcon < 256 →
    ∀ x ∈ Aes.derive_key_go buf offset rcon, x < 256 := by
  intro n
  induction n with
  | zero =>
    intro buf offset rcon hn hb hr
    rw [Aes.derive_key_go, dif_pos (by omega)]
    exact hb
  | succ n ih =>
    intro buf offset rcon hn hb hr
    by_cases hoff : 160 ≤ offset
    · rw [Aes.derive_key_go, dif_pos hoff]
      exact hb
    · rw [Aes.derive_key_go, dif_neg hoff]
      have hfin : ∀ x ∈ buf.take offset, x < 256 :=
        fun x hx => hb x (List.mem_of_mem_take hx)
      have hnext0 : ∀ x ∈ readRange (buf.take offset) (offset - 4) 4, x < 256 :=
        fun x hx => hfin x (mem_readRange hx)
      have hnext1 : ∀ x ∈ (if (offset % 32 == 0) = true then
          Aes.schedule_core (readRange (buf.take offset) (offset - 4) 4) rcon
        else if (offset % 32 == 16) = true then
          Aes.sub_bytes (readRange (buf.take offset) (offset - 4) 4)
        else readRange (buf.take offset) (offset - 4) 4), x < 256 := by
        split
        · exact schedule_core_lt _ _ hr
        · split
          · exact sub_bytes_lt _
          · exact hnext0
      have hnext2 : ∀ x ∈ xorBytes (if (offset % 32 == 0) = true then
          Aes.schedule_core (readRange (buf.take offset) (offset - 4) 4) rcon
        else if (offset % 32 == 16) = true then
          Aes.sub_bytes (readRange (buf.take offset) (offset - 4) 4)
        else readRange (buf.take offset) (offset - 4) 4)
          ((buf.take offset).drop (offset - 32)), x < 256 :=
        xorBytes_lt _ _ hnext1 (fun x hx => hfin x (List.mem_of_mem_drop hx))
      have hrcon1 : (if (offset % 32 == 0) = true then Aes.gmul2 rcon else rcon) < 256 := by
        split
        · exact gmul2_lt rcon
        · exact hr
      exact ih _ _ _ (by omega) (writeRange_lt _ _ _ hb hnext2) hrcon1

theorem derive_key_lt (seed : List Nat) (h : ∀ x ∈ seed, x < 256) :
    ∀ x ∈ Aes.derive_key seed, x < 256 := by
  rw [Aes.derive_key]
  refine derive_key_go_lt_aux 40 _ 32 1 (by omega) ?_ (by omega)
  intro x hx
  rcases List.mem_append.mp hx with h1 | h1
  · exact h x (List.mem_of_mem_take h1)
  · rw [List.eq_of_mem_replicate h1]
    omega

/-! ## Byte / vector / U64p conversions -/

theorem leBytes8_leVal (l : List Nat) (h : l.length = 8) (hb : ∀ c ∈ l, c < 256) :
    leBytes 8 (leVal l) = l := by
  rw [← h]
  exact leBytes_leVal l hb

theorem toBytes_ofBytes (x : List Nat) (hx : x.length = 16)
    (hb : ∀ c ∈ x, c < 256) : (U64p.ofBytes x).toBytes = x := by
  rw [U64p.ofBytes, U64p.toBytes]
  simp only [readRange, List.drop_zero]
  rw [leBytes8_leVal _ (by simp [hx]) (fun c hc => hb c (List.mem_of_mem_take hc)),
    leBytes8_leVal _ (by simp [hx])
      (fun c hc => hb c (List.mem_of_mem_drop (List.mem_of_mem_take hc))),
    List.take_of_length_le (l := x.drop 8) (by simp [hx]), List.take_append_drop]

theorem sp_index_corr (x : List Nat) (hx : x.length = 16) (hb : ∀ c ∈ x, c < 256) :
    Aesni.to_sp_index x = U64p.toUsize (U64p.ofBytes x) := by
  have h8b : ∀ c ∈ x.take 8, c < 256 := fun c hc => hb c (List.mem_of_mem_take hc)
  rw [U64p.toUsize, U64p.ofBytes]
  simp only [readRange_zero]
  rw [Aesni.to_sp_index, Aesni.extract_epi32_0, readRange_zero, mask21_div16,
    mask_div16]
  have h4 : x.take 4 = (x.take 8).take 4 := by
    rw [List.take_take]
    norm_num
  rw [h4, leVal_take (x.take 8) 4 h8b, show (256 : Nat) ^ 4 = 2 ^ 32 by norm_num,
    mod_pow_div16 _ 32 (by norm_num)]
  exact Nat.mod_mod_of_dvd _ (pow_dvd_pow 2 (by norm_num))

theorem mm_xor_corr (x y : List Nat) (hx : x.length = 16) (hy : y.length = 16)
    (hbx : ∀ c ∈ x, c < 256) (hby : ∀ c ∈ y, c < 256) :
    U64p.ofBytes (Aesni.mm_xor x y) = U64p.xor (U64p.ofBytes x) (U64p.ofBytes y) := by
  rw [Aesni.mm_xor, ← xorBytes_eq_zipWith x y (by omega),
    ofBytes_xorBytes x y hx hy hbx hby]

theorem ofBytes_lanes (x : List Nat) :
    U64p.ofBytes x = ⟨leVal (readRange x 0 8), leVal (readRange x 8 8)⟩ := rfl

theorem cn_mul_corr (x y : List Nat) :
    U64p.ofBytes (Aesni.cn_8byte_mul x y) =
      U64p.mul (U64p.ofBytes x) (U64p.ofBytes y) := by
  rw [Aesni.cn_8byte_mul, U64p.mul, ofBytes_lanes x, ofBytes_lanes y, ofBytes_lanes,
    U64p.mk.injEq]
  constructor
  · rw [readRange_zero, List.take_left' (leBytes_length 8 _), leVal_leBytes,
      show (256 : Nat) ^ 8 = 2 ^ 64 by norm_num]
    rfl
  · rw [readRange, List.drop_left' (leBytes_length 8 _),
      List.take_of_length_le (le_of_eq (leBytes_length 8 _)), leVal_leBytes,
      show (256 : Nat) ^ 8 = 2 ^ 64 by norm_num]
    rfl

theorem cn_add_corr (x y : List Nat) :
    U64p.ofBytes (Aesni.cn_8byte_add x y) =
      U64p.add (U64p.ofBytes x) (U64p.ofBytes y) := by
  rw [Aesni.cn_8byte_add, U64p.add, ofBytes_lanes x, ofBytes_lanes y, ofBytes_lanes,
    U64p.mk.injEq]
  constructor
  · rw [readRange_zero, List.take_left' (leBytes_length 8 _), leVal_leBytes,
      show (256 : Nat) ^ 8 = 2 ^ 64 by norm_num]
  · rw [readRange, List.drop_left' (leBytes_length 8 _),
      List.take_of_length_le (le_of_eq (leBytes_length 8 _)), leVal_leBytes,
      show (256 : Nat) ^ 8 = 2 ^ 64 by norm_num]

theorem mm_aesenc_corr (c k : List Nat) (hc : GoodBlock c) (hk : GoodBlock k) :
    U64p.ofBytes (Aesni.mm_aesenc c k) =
      Aes.aes_round_u (U64p.ofBytes c) (U64p.ofBytes k) := by
  rw [Aes.aes_round_u, toBytes_ofBytes c hc.1 hc.2, toBytes_ofBytes k hk.1 hk.2,
    mm_aesenc_eq c k hc.1]

theorem getD_map_ofBytes (l : List (List Nat)) (i : Nat) :
    (l.map U64p.ofBytes).getD i default = U64p.ofBytes (l.getD i []) := by
  rw [List.getD_eq_getElem?_getD, List.getD_eq_getElem?_getD, List.getElem?_map]
  cases l[i]? <;> rfl

theorem leBytes_lt (n v : Nat) : ∀ x ∈ leBytes n v, x < 256 := by
  induction n generalizing v with
  | zero => intro x hx; simp [leBytes] at hx
  | succ n ih =>
    intro x hx
    rw [leBytes] at hx
    rcases List.mem_cons.mp hx with h | h
    · omega
    · exact ih _ x h

theorem goodBlock_mm_aesenc (c k : List Nat) (hc : GoodBlock c)
    (hk : GoodBlock k) : GoodBlock (Aesni.mm_aesenc c k) := by
  constructor
  · rw [mm_aesenc_eq c k hc.1, aes_round_length, hc.1]
  · rw [mm_aesenc_eq c k hc.1]
    exact aes_round_lt _ _ hk.2

theorem goodBlock_mm_xor (x y : List Nat) (hx : GoodBlock x) (hy : GoodBlock y) :
    GoodBlock (Aesni.mm_xor x y) := by
  constructor
  · rw [Aesni.mm_xor, List.length_zipWith, hx.1, hy.1]
    norm_num
  · exact zipWith_xor_lt x y hx.2 hy.2

theorem goodBlock_cn_mul (x y : List Nat) : GoodBlock (Aesni.cn_8byte_mul x y) := by
  constructor
  · rw [Aesni.cn_8byte_mul, List.length_append, leBytes_length, leBytes_length]
  · intro c hc
    rw [Aesni.cn_8byte_mul] at hc
    rcases List.mem_append.mp hc with h | h
    · exact leBytes_lt _ _ c h
    · exact leBytes_lt _ _ c h

theorem goodBlock_cn_add (x y : List Nat) : GoodBlock (Aesni.cn_8byte_add x y) := by
  constructor
  · rw [Aesni.cn_8byte_add, List.length_append, leBytes_length, leBytes_length]
  · intro c hc
    rw [Aesni.cn_8byte_add] at hc
    rcases List.mem_append.mp hc with h | h
    · exact leBytes_lt _ _ c h
    · exact leBytes_lt _ _ c h

theorem goodBlock_getD (sp : List (List Nat)) (i : Nat)
    (h : ∀ blk ∈ sp, GoodBlock blk) (hi : i < sp.length) :
    GoodBlock (sp.getD i []) := by
  rw [List.getD_eq_getElem?_getD, List.getElem?_eq_getElem hi]
  exact h _ (List.getElem_mem hi)

/-! ## Main-loop correspondence -/

theorem to_sp_index_lt (x : List Nat) : Aesni.to_sp_index x < 131072 := by
  have := to_sp_index_le x
  omega

theorem goodBlock_set (sp : List (List Nat)) (i : Nat) (v : List Nat)
    (hsp : ∀ blk ∈ sp, GoodBlock blk) (hv : GoodBlock v) :
    ∀ blk ∈ sp.set i v, GoodBlock blk := fun blk hblk =>
  (List.mem_or_eq_of_mem_set hblk).elim (hsp blk) (fun e => e ▸ hv)

theorem aesni_step_corr (a b : List Nat) (sp : List (List Nat))
    (h : GoodState (a, b, sp)) :
    Aes.main_step (U64p.ofBytes a, U64p.ofBytes b, sp.map U64p.ofBytes) =
      (U64p.ofBytes (Aesni.main_step (a, b, sp)).1,
       U64p.ofBytes (Aesni.main_step (a, b, sp)).2.1,
       (Aesni.main_step (a, b, sp)).2.2.map U64p.ofBytes) ∧
    GoodState (Aesni.main_step (a, b, sp)) := by
  obtain ⟨ha, hb, hlen, hsp⟩ := h
  have gcell : GoodBlock (sp.getD (Aesni.to_sp_index a) []) :=
    goodBlock_getD _ _ hsp (by rw [hlen]; exact to_sp_index_lt a)
  have genc : GoodBlock (Aesni.mm_aesenc (sp.getD (Aesni.to_sp_index a) []) a) := goodBlock_mm_aesenc _ a gcell ha
  have hsp1g : ∀ blk ∈ sp.set (Aesni.to_sp_index a) (Aesni.mm_aesenc (sp.getD (Aesni.to_sp_index a) []) a), GoodBlock blk := goodBlock_set _ _ _ hsp genc
  have hsp1len : (sp.set (Aesni.to_sp_index a) (Aesni.mm_aesenc (sp.getD (Aesni.to_sp_index a) []) a)).length = 131072 := by
    rw [List.length_set, hlen]
  have gb1 : GoodBlock ((sp.set (Aesni.to_sp_index a) (Aesni.mm_aesenc (sp.getD (Aesni.to_sp_index a) []) a)).getD (Aesni.to_sp_index a) []) :=
    goodBlock_getD _ _ hsp1g (by rw [hsp1len]; exact to_sp_index_lt a)
  have gx1 : GoodBlock (Aesni.mm_xor ((sp.set (Aesni.to_sp_index a) (Aesni.mm_aesenc (sp.getD (Aesni.to_sp_index a) []) a)).getD (Aesni.to_sp_index a) []) b) := goodBlock_mm_xor _ b gb1 hb
  have hsp2g : ∀ blk ∈ (sp.set (Aesni.to_sp_index a) (Aesni.mm_aesenc (sp.getD (Aesni.to_sp_index a) []) a)).set (Aesni.to_sp_index a) (Aesni.mm_xor ((sp.set (Aesni.to_sp_index a) (Aesni.mm_aesenc (sp.getD (Aesni.to_sp_index a) []) a)).getD (Aesni.to_sp_index a) []) b), GoodBlock blk := goodBlock_set _ _ _ hsp1g gx1
  have hsp2len : ((sp.set (Aesni.to_sp_index a) (Aesni.mm_aesenc (sp.getD (Aesni.to_sp_index a) []) a)).set (Aesni.to_sp_index a) (Aesni.mm_xor ((sp.set (Aesni.to_sp_index a) (Aesni.mm_aesenc (sp.getD (Aesni.to_sp_index a) []) a)).getD (Aesni.to_sp_index a) []) b)).length = 131072 := by
    rw [List.length_set, hsp1len]
  have gd : GoodBlock (((sp.set (Aesni.to_sp_index a) (Aesni.mm_aesenc (sp.getD (Aesni.to_sp_index a) []) a)).set (Aesni.to_sp_index a) (Aesni.mm_xor ((sp.set (Aesni.to_sp_index a) (Aesni.mm_aesenc (sp.getD (Aesni.to_sp_index a) []) a)).getD (Aesni.to_sp_index a) []) b)).getD (Aesni.to_sp_index ((sp.set (Aesni.to_sp_index a) (Aesni.mm_aesenc (sp.getD (Aesni.to_sp_index a) []) a)).getD (Aesni.to_sp_index a) [])) []) :=
    goodBlock_getD _ _ hsp2g (by rw [hsp2len]; exact to_sp_index_lt _)
  have gt : GoodBlock (Aesni.cn_8byte_add a (Aesni.cn_8byte_mul ((sp.set (Aesni.to_sp_index a) (Aesni.mm_aesenc (sp.getD (Aesni.to_sp_index a) []) a)).getD (Aesni.to_sp_index a) []) (((sp.set (Aesni.to_sp_index a) (Aesni.mm_aesenc (sp.getD (Aesni.to_sp_index a) []) a)).set (Aesni.to_sp_index a) (Aesni.mm_xor ((sp.set (Aesni.to_sp_index a) (Aesni.mm_aesenc (sp.getD (Aesni.to_sp_index a) []) a)).getD (Aesni.to_sp_index a) []) b)).getD (Aesni.to_sp_index ((sp.set (Aesni.to_sp_index a) (Aesni.mm_aesenc (sp.getD (Aesni.to_sp_index a) []) a)).getD (Aesni.to_sp_index a) [])) []))) := goodBlock_cn_add a (Aesni.cn_8byte_mul ((sp.set (Aesni.to_sp_index a) (Aesni.mm_aesenc (sp.getD (Aesni.to_sp_index a) []) a)).getD (Aesni.to_sp_index a) []) (((sp.set (Aesni.to_sp_index a) (Aesni.mm_aesenc (sp.getD (Aesni.to_sp_index a) []) a)).set (Aesni.to_sp_index a) (Aesni.mm_xor ((sp.set (Aesni.to_sp_index a) (Aesni.mm_aesenc (sp.getD (Aesni.to_sp_index a) []) a)).getD (Aesni.to_sp_index a) []) b)).getD (Aesni.to_sp_index ((sp.set (Aesni.to_sp_index a) (Aesni.mm_aesenc (sp.getD (Aesni.to_sp_index a) []) a)).getD (Aesni.to_sp_index a) [])) []))
  have ga1 : GoodBlock (Aesni.mm_xor (((sp.set (Aesni.to_sp_index a) (Aesni.mm_aesenc (sp.getD (Aesni.to_sp_index a) []) a)).set (Aesni.to_sp_index a) (Aesni.mm_xor ((sp.set (Aesni.to_sp_index a) (Aesni.mm_aesenc (sp.getD (Aesni.to_sp_index a) []) a)).getD (Aesni.to_sp_index a) []) b)).getD (Aesni.to_sp_index ((sp.set (Aesni.to_sp_index a) (Aesni.mm_aesenc (sp.getD (Aesni.to_sp_index a) []) a)).getD (Aesni.to_sp_index a) [])) []) (Aesni.cn_8byte_add a (Aesni.cn_8byte_mul ((sp.set (Aesni.to_sp_index a) (Aesni.mm_aesenc (sp.getD (Aesni.to_sp_index a) []) a)).getD (Aesni.to_sp_index a) []) (((sp.set (Aesni.to_sp_index a) (Aesni.mm_aesenc (sp.getD (Aesni.to_sp_index a) []) a)).set (Aesni.to_sp_index a) (Aesni.mm_xor ((sp.set (Aesni.to_sp_index a) (Aesni.mm_aesenc (sp.getD (Aesni.to_sp_index a) []) a)).getD (Aesni.to_sp_index a) []) b)).getD (Aesni.to_sp_index ((sp.set (Aesni.to_sp_index a) (Aesni.mm_aesenc (sp.getD (Aesni.to_sp_index a) []) a)).getD (Aesni.to_sp_index a) [])) [])))) := goodBlock_mm_xor _ _ gd gt
  have hsp3g : ∀ blk ∈ ((sp.set (Aesni.to_sp_index a) (Aesni.mm_aesenc (sp.getD (Aesni.to_sp_index a) []) a)).set (Aesni.to_sp_index a) (Aesni.mm_xor ((sp.set (Aesni.to_sp_index a) (Aesni.mm_aesenc (sp.getD (Aesni.to_sp_index a) []) a)).getD (Aesni.to_sp_index a) []) b)).set (Aesni.to_sp_index ((sp.set (Aesni.to_sp_index a) (Aesni.mm_aesenc (sp.getD (Aesni.to_sp_index a) []) a)).getD (Aesni.to_sp_index a) [])) (Aesni.cn_8byte_add a (Aesni.cn_8byte_mul ((sp.set (Aesni.to_sp_index a) (Aesni.mm_aesenc (sp.getD (Aesni.to_sp_index a) []) a)).getD (Aesni.to_sp_index a) []) (((sp.set (Aesni.to_sp_index a) (Aesni.mm_aesenc (sp.getD (Aesni.to_sp_index a) []) a)).set (Aesni.to_sp_index a) (Aesni.mm_xor ((sp.set (Aesni.to_sp_index a) (Aesni.mm_aesenc (sp.getD (Aesni.to_sp_index a) []) a)).getD (Aesni.to_sp_index a) []) b)).getD (Aesni.to_sp_index ((sp.set (Aesni.to_sp_index a) (Aesni.mm_aesenc (sp.getD (Aesni.to_sp_index a) []) a)).getD (Aesni.to_sp_index a) [])) []))), GoodBlock blk := goodBlock_set _ _ _ hsp2g gt
  have hsp3len : (((sp.set (Aesni.to_sp_index a) (Aesni.mm_aesenc (sp.getD (Aesni.to_sp_index a) []) a)).set (Aesni.to_sp_index a) (Aesni.mm_xor ((sp.set (Aesni.to_sp_index a) (Aesni.mm_aesenc (sp.getD (Aesni.to_sp_index a) []) a)).getD (Aesni.to_sp_index a) []) b)).set (Aesni.to_sp_index ((sp.set (Aesni.to_sp_index a) (Aesni.mm_aesenc (sp.getD (Aesni.to_sp_index a) []) a)).getD (Aesni.to_sp_index a) [])) (Aesni.cn_8byte_add a (Aesni.cn_8byte_mul ((sp.set (Aesni.to_sp_index a) (Aesni.mm_aesenc (sp.getD (Aesni.to_sp_index a) []) a)).getD (Aesni.to_sp_index a) []) (((sp.set (Aesni.to_sp_index a) (Aesni.mm_aesenc (sp.getD (Aesni.to_sp_index a) []) a)).set (Aesni.to_sp_index a) (Aesni.mm_xor ((sp.set (Aesni.to_sp_index a) (Aesni.mm_aesenc (sp.getD (Aesni.to_sp_index a) []) a)).getD (Aesni.to_sp_index a) []) b)).getD (Aesni.to_sp_index ((sp.set (Aesni.to_sp_index a) (Aesni.mm_aesenc (sp.getD (Aesni.to_sp_index a) []) a)).getD (Aesni.to_sp_index a) [])) [])))).length = 131072 := by
    rw [List.length_set, hsp2len]
  constructor
  · simp only [Aes.main_step, Aes.first_transfer, Aes.second_transfer,
      Aesni.main_step]
    rw [← sp_index_corr a ha.1 ha.2, getD_map_ofBytes sp (Aesni.to_sp_index a),
      ← mm_aesenc_corr (sp.getD (Aesni.to_sp_index a) []) a gcell ha, ← List.map_set,
      getD_map_ofBytes (sp.set (Aesni.to_sp_index a) (Aesni.mm_aesenc (sp.getD (Aesni.to_sp_index a) []) a)) (Aesni.to_sp_index a),
      ← mm_xor_corr ((sp.set (Aesni.to_sp_index a) (Aesni.mm_aesenc (sp.getD (Aesni.to_sp_index a) []) a)).getD (Aesni.to_sp_index a) []) b gb1.1 hb.1 gb1.2 hb.2, ← List.map_set,
      ← sp_index_corr ((sp.set (Aesni.to_sp_index a) (Aesni.mm_aesenc (sp.getD (Aesni.to_sp_index a) []) a)).getD (Aesni.to_sp_index a) []) gb1.1 gb1.2,
      getD_map_ofBytes ((sp.set (Aesni.to_sp_index a) (Aesni.mm_aesenc (sp.getD (Aesni.to_sp_index a) []) a)).set (Aesni.to_sp_index a) (Aesni.mm_xor ((sp.set (Aesni.to_sp_index a) (Aesni.mm_aesenc (sp.getD (Aesni.to_sp_index a) []) a)).getD (Aesni.to_sp_index a) []) b)) (Aesni.to_sp_index ((sp.set (Aesni.to_sp_index a) (Aesni.mm_aesenc (sp.getD (Aesni.to_sp_index a) []) a)).getD (Aesni.to_sp_index a) [])),
      ← cn_mul_corr ((sp.set (Aesni.to_sp_index a) (Aesni.mm_aesenc (sp.getD (Aesni.to_sp_index a) []) a)).getD (Aesni.to_sp_index a) []) (((sp.set (Aesni.to_sp_index a) (Aesni.mm_aesenc (sp.getD (Aesni.to_sp_index a) []) a)).set (Aesni.to_sp_index a) (Aesni.mm_xor ((sp.set (Aesni.to_sp_index a) (Aesni.mm_aesenc (sp.getD (Aesni.to_sp_index a) []) a)).getD (Aesni.to_sp_index a) []) b)).getD (Aesni.to_sp_index ((sp.set (Aesni.to_sp_index a) (Aesni.mm_aesenc (sp.getD (Aesni.to_sp_index a) []) a)).getD (Aesni.to_sp_index a) [])) []), ← cn_add_corr a (Aesni.cn_8byte_mul ((sp.set (Aesni.to_sp_index a) (Aesni.mm_aesenc (sp.getD (Aesni.to_sp_index a) []) a)).getD (Aesni.to_sp_index a) []) (((sp.set (Aesni.to_sp_index a) (Aesni.mm_aesenc (sp.getD (Aesni.to_sp_index a) []) a)).set (Aesni.to_sp_index a) (Aesni.mm_xor ((sp.set (Aesni.to_sp_index a) (Aesni.mm_aesenc (sp.getD (Aesni.to_sp_index a) []) a)).getD (Aesni.to_sp_index a) []) b)).getD (Aesni.to_sp_index ((sp.set (Aesni.to_sp_index a) (Aesni.mm_aesenc (sp.getD (Aesni.to_sp_index a) []) a)).getD (Aesni.to_sp_index a) [])) [])),
      ← mm_xor_corr (((sp.set (Aesni.to_sp_index a) (Aesni.mm_aesenc (sp.getD (Aesni.to_sp_index a) []) a)).set (Aesni.to_sp_index a) (Aesni.mm_xor ((sp.set (Aesni.to_sp_index a) (Aesni.mm_aesenc (sp.getD (Aesni.to_sp_index a) []) a)).getD (Aesni.to_sp_index a) []) b)).getD (Aesni.to_sp_index ((sp.set (Aesni.to_sp_index a) (Aesni.mm_aesenc (sp.getD (Aesni.to_sp_index a) []) a)).getD (Aesni.to_sp_index a) [])) []) (Aesni.cn_8byte_add a (Aesni.cn_8byte_mul ((sp.set (Aesni.to_sp_index a) (Aesni.mm_aesenc (sp.getD (Aesni.to_sp_index a) []) a)).getD (Aesni.to_sp_index a) []) (((sp.set (Aesni.to_sp_index a) (Aesni.mm_aesenc (sp.getD (Aesni.to_sp_index a) []) a)).set (Aesni.to_sp_index a) (Aesni.mm_xor ((sp.set (Aesni.to_sp_index a) (Aesni.mm_aesenc (sp.getD (Aesni.to_sp_index a) []) a)).getD (Aesni.to_sp_index a) []) b)).getD (Aesni.to_sp_index ((sp.set (Aesni.to_sp_index a) (Aesni.mm_aesenc (sp.getD (Aesni.to_sp_index a) []) a)).getD (Aesni.to_sp_index a) [])) []))) gd.1 gt.1 gd.2 gt.2, ← List.map_set]
  · exact ⟨ga1, gb1, hsp3len, hsp3g⟩

theorem aesni_loop_corr (n : Nat) :
    ∀ (a b : List Nat) (sp : List (List Nat)), GoodState (a, b, sp) →
    Aes.main_loop_go n (U64p.ofBytes a, U64p.ofBytes b, sp.map U64p.ofBytes) =
      (U64p.ofBytes (Aesni.main_loop_go n (a, b, sp)).1,
       U64p.ofBytes (Aesni.main_loop_go n (a, b, sp)).2.1,
       (Aesni.main_loop_go n (a, b, sp)).2.2.map U64p.ofBytes) ∧
    GoodState (Aesni.main_loop_go n (a, b, sp)) := by
  induction n with
  | zero => intro a b sp h; exact ⟨rfl, h⟩
  | succ n ih =>
    intro a b sp h
    obtain ⟨hstep, hgood⟩ := aesni_step_corr a b sp h
    rw [Aes.main_loop_go, Aesni.main_loop_go, hstep]
    exact ih _ _ _ hgood

/-! ## Chunk algebra -/

theorem chunksExact_drop {n : Nat} (hn : 0 < n) (k : Nat) :
    ∀ (l : List α), chunksExact n (l.drop (n * k)) = (chunksExact n l).drop k := by
  induction k with
  | zero => intro l; simp
  | succ k ih =>
    intro l
    by_cases h : n ≤ l.length
    · conv_rhs => rw [chunksExact, dif_pos ⟨hn, h⟩]
      rw [List.drop_succ_cons, ← ih (l.drop n), List.drop_drop,
        show n + n * k = n * (k + 1) from by ring]
    · have h1 : chunksExact n (l.drop (n * (k + 1))) = ([] : List (List α)) := by
        rw [chunksExact, dif_neg]
        intro hh
        rw [List.length_drop] at hh
        omega
      have h2 : chunksExact n l = ([] : List (List α)) := by
        rw [chunksExact, dif_neg (fun hh => h hh.2)]
      rw [h1, h2, List.drop_nil]

theorem chunksExact_take {n : Nat} (hn : 0 < n) (k : Nat) :
    ∀ (l : List α), chunksExact n (l.take (n * k)) = (chunksExact n l).take k := by
  induction k with
  | zero =>
    intro l
    rw [Nat.mul_zero, List.take_zero, List.take_zero, chunksExact,
      dif_neg (fun hh => by have := hh.2; simp only [List.length_nil] at this; omega)]
  | succ k ih =>
    intro l
    by_cases h : n ≤ l.length
    · have h1 : n ≤ (l.take (n * (k + 1))).length := by
        rw [List.length_take]
        have := Nat.le_mul_of_pos_right n (show 0 < k + 1 by omega)
        omega
      conv_rhs => rw [chunksExact, dif_pos ⟨hn, h⟩]
      rw [List.take_succ_cons, ← ih (l.drop n)]
      conv_lhs => rw [chunksExact, dif_pos ⟨hn, h1⟩]
      congr 1
      · rw [List.take_take, Nat.min_eq_left (Nat.le_mul_of_pos_right n (by omega))]
      · rw [List.drop_take, Nat.mul_succ, Nat.add_sub_cancel]
    · have h1 : chunksExact n l = ([] : List (List α)) := by
        rw [chunksExact, dif_neg (fun hh => h hh.2)]
      have h2 : chunksExact n (l.take (n * (k + 1))) = ([] : List (List α)) := by
        rw [chunksExact, dif_neg]
        intro hh
        rw [List.length_take] at hh
        omega
      rw [h1, h2, List.take_nil]

theorem chunksExact_append {n : Nat} (hn : 0 < n) :
    ∀ (m : Nat) (c r : List α), c.length = n * m →
    chunksExact n (c ++ r) = chunksExact n c ++ chunksExact n r := by
  intro m
  induction m with
  | zero =>
    intro c r hc
    have : c = [] := List.eq_nil_of_length_eq_zero (by omega)
    subst this
    have h0 : chunksExact n ([] : List α) = ([] : List (List α)) := by
      rw [chunksExact,
        dif_neg (fun hh => by have := hh.2; simp only [List.length_nil] at this; omega)]
    rw [List.nil_append, h0, List.nil_append]
  | succ m ih =>
    intro c r hc
    have hcn : n ≤ c.length := by
      rw [hc, Nat.mul_succ]
      omega
    have h1 : n ≤ (c ++ r).length := by
      rw [List.length_append]
      omega
    conv_lhs => rw [chunksExact, dif_pos ⟨hn, h1⟩]
    conv_rhs => rw [chunksExact, dif_pos ⟨hn, hcn⟩]
    rw [List.take_append_of_le_length hcn, List.drop_append_of_le_length hcn,
      ih (c.drop n) r (by rw [List.length_drop, hc, Nat.mul_succ, Nat.add_sub_cancel]),
      List.cons_append]

theorem flatten_chunksExact {n : Nat} (hn : 0 < n) :
    ∀ (m : Nat) (l : List α), l.length = n * m → (chunksExact n l).flatten = l := by
  intro m
  induction m with
  | zero =>
    intro l hl
    have : l = [] := List.eq_nil_of_length_eq_zero (by omega)
    subst this
    rw [chunksExact,
      dif_neg (fun hh => by have := hh.2; simp only [List.length_nil] at this; omega),
      List.flatten_nil]
  | succ m ih =>
    intro l hl
    have hln : n ≤ l.length := by
      rw [hl, Nat.mul_succ]
      omega
    conv_lhs => rw [chunksExact, dif_pos ⟨hn, hln⟩]
    rw [List.flatten_cons,
      ih (l.drop n) (by rw [List.length_drop, hl, Nat.mul_succ, Nat.add_sub_cancel]),
      List.take_append_drop]

theorem chunksExact_getD {n : Nat} (hn : 0 < n) :
    ∀ (i : Nat) (l : List α), n * (i + 1) ≤ l.length →
    (chunksExact n l).getD i [] = (l.drop (n * i)).take n := by
  intro i
  induction i with
  | zero =>
    intro l hl
    rw [chunksExact, dif_pos ⟨hn, by have := hl; rw [Nat.mul_one] at this; omega⟩]
    simp
  | succ i ih =>
    intro l hl
    have hms : n * (i + 1 + 1) = n * (i + 1) + n := Nat.mul_succ n (i + 1)
    have hln : n ≤ l.length := by omega
    conv_lhs => rw [chunksExact, dif_pos ⟨hn, hln⟩]
    rw [List.getD_cons_succ,
      ih (l.drop n) (by rw [List.length_drop]; omega), List.drop_drop,
      show n + n * i = n * (i + 1) from by ring]

/-! ## Explode correspondence -/

theorem foldl_mm_aesenc_eq (keys : List (List Nat)) :
    ∀ (c : List Nat), c.length = 16 →
    keys.foldl Aesni.mm_aesenc c = keys.foldl Aes.aes_round c := by
  induction keys with
  | nil => intro c _; rfl
  | cons k ks ih =>
    intro c hc
    rw [List.foldl_cons, List.foldl_cons, mm_aesenc_eq c k hc]
    exact ih (Aes.aes_round c k) (by rw [aes_round_length, hc])

theorem encrypt_block_foldl (keys : List (List Nat)) (c : List Nat)
    (hc : c.length = 16) :
    Aesni.encrypt_block keys c = keys.foldl Aes.aes_round c := by
  rw [Aesni.encrypt_block]
  exact foldl_mm_aesenc_eq keys c hc

theorem mem_chunksExact_mem {n : Nat} {l c : List α} (hc : c ∈ chunksExact n l) :
    ∀ x ∈ c, x ∈ l := by
  induction l using chunksExact.induct n with
  | case1 l h ih =>
    rw [chunksExact, dif_pos h] at hc
    rcases List.mem_cons.mp hc with h1 | h1
    · subst h1
      exact fun x hx => List.mem_of_mem_take hx
    · exact fun x hx => List.mem_of_mem_drop (ih h1 x hx)
  | case2 l h =>
    rw [chunksExact, dif_neg h] at hc
    simp at hc

theorem foldl_aes_round_lt (keys : List (List Nat)) :
    ∀ (c : List Nat), (∀ x ∈ c, x < 256) → (∀ k ∈ keys, ∀ x ∈ k, x < 256) →
    ∀ x ∈ keys.foldl Aes.aes_round c, x < 256 := by
  induction keys with
  | nil => intro c hc _; exact hc
  | cons k ks ih =>
    intro c hc hk
    rw [List.foldl_cons]
    exact ih (Aes.aes_round c k)
      (aes_round_lt c k (hk k (List.mem_cons_self k ks)))
      (fun k' hk' => hk k' (List.mem_cons_of_mem k hk'))

theorem encrypt_blocks_lt (keys : List (List Nat)) (blocks : List Nat)
    (hin : ∀ x ∈ blocks, x < 256) (hk : ∀ k ∈ keys, ∀ x ∈ k, x < 256) :
    ∀ x ∈ Aes.encrypt_blocks keys blocks, x < 256 := by
  intro x hx
  rw [Aes.encrypt_blocks, mapChunksExact] at hx
  rcases List.mem_append.mp hx with h | h
  · obtain ⟨c, hc, hxc⟩ := List.mem_flatten.mp h
    obtain ⟨d, hd, rfl⟩ := List.mem_map.mp hc
    exact foldl_aes_round_lt keys d
      (fun y hy => hin y (mem_chunksExact_mem hd y hy)) hk x hxc
  · exact hin x (List.mem_of_mem_drop h)

theorem explode_chunks_lt (keys : List (List Nat))
    (hk : ∀ k ∈ keys, ∀ x ∈ k, x < 256) (n : Nat) :
    ∀ (blocks : List Nat), (∀ x ∈ blocks, x < 256) →
    ∀ c ∈ Aes.explode_chunks keys blocks n, ∀ x ∈ c, x < 256 := by
  induction n with
  | zero => intro blocks _ c hc; rw [Aes.explode_chunks] at hc; simp at hc
  | succ n ih =>
    intro blocks hb c hc
    rw [Aes.explode_chunks] at hc
    rcases List.mem_cons.mp hc with h1 | h1
    · subst h1
      exact encrypt_blocks_lt keys blocks hb hk
    · exact ih (Aes.encrypt_blocks keys blocks)
        (encrypt_blocks_lt keys blocks hb hk) c h1

theorem encrypt_blocks_chunks (keys : List (List Nat)) (blocks : List Nat)
    (hb : blocks.length = 128) :
    chunksExact 16 (Aes.encrypt_blocks keys blocks) =
      (chunksExact 16 blocks).map (Aesni.encrypt_block keys) := by
  rw [Aes.encrypt_blocks, mapChunksExact, hb,
    show (128 : Nat) / 16 * 16 = 128 from rfl,
    List.drop_eq_nil_of_le (by omega), List.append_nil,
    chunksExact_flatten (by norm_num) _ (fun c hc => by
      obtain ⟨d, hd, rfl⟩ := List.mem_map.mp hc
      rw [foldl_aes_round_length]
      exact chunksExact_mem_length hd)]
  exact List.map_congr_left (fun c hc =>
    (encrypt_block_foldl keys c (chunksExact_mem_length hc)).symm)

theorem init_chunks_corr (keys : List (List Nat)) (n : Nat) :
    ∀ (blocks : List Nat), blocks.length = 128 →
    Aesni.init_chunks keys (chunksExact 16 blocks) n =
      (Aes.explode_chunks keys blocks n).map (chunksExact 16) := by
  induction n with
  | zero => intro blocks _; rfl
  | succ n ih =>
    intro blocks hb
    rw [Aesni.init_chunks, Aes.explode_chunks, List.map_cons,
      ← encrypt_blocks_chunks keys blocks hb,
      ih (Aes.encrypt_blocks keys blocks) (by rw [encrypt_blocks_length, hb])]

/-! ## Key-schedule equivalence -/

theorem xor_lcomm (a b c : Nat) : a ^^^ (b ^^^ c) = b ^^^ (a ^^^ c) := by
  rw [← Nat.xor_assoc, Nat.xor_comm a b, Nat.xor_assoc]

theorem assist1_eq (t1 t3 : List Nat) (h1 : t1.length = 16) (h3 : t3.length = 16)
    (rcon : Nat) :
    Aesni.key_256_assist_1 t1 (Aesni.mm_aeskeygenassist t3 rcon) =
      nextKeyA (t1 ++ t3) rcon := by
  obtain ⟨a0, a1, a2, a3, a4, a5, a6, a7, a8, a9, a10, a11, a12, a13, a14, a15, rfl⟩ :=
    length16_cases t1 h1
  obtain ⟨b0, b1, b2, b3, b4, b5, b6, b7, b8, b9, b10, b11, b12, b13, b14, b15, rfl⟩ :=
    length16_cases t3 h3
  simp [Aesni.key_256_assist_1, Aesni.mm_aeskeygenassist, Aesni.mm_shuffle_ff,
    Aesni.mm_slli4, Aesni.mm_xor, nextKeyA, Aes.schedule_core, Aes.sub_bytes,
    readRange, xorBytes, lg, List.rotateLeft, Nat.xor_zero, Nat.zero_xor,
    Nat.xor_assoc, Nat.xor_comm, xor_lcomm]

theorem assist2_eq (k p : List Nat) (hk : k.length = 16) (hp : p.length = 16) :
    Aesni.key_256_assist_2 k p = nextKeyB (p ++ k) := by
  obtain ⟨a0, a1, a2, a3, a4, a5, a6, a7, a8, a9, a10, a11, a12, a13, a14, a15, rfl⟩ :=
    length16_cases k hk
  obtain ⟨b0, b1, b2, b3, b4, b5, b6, b7, b8, b9, b10, b11, b12, b13, b14, b15, rfl⟩ :=
    length16_cases p hp
  simp [Aesni.key_256_assist_2, Aesni.mm_aeskeygenassist, Aesni.mm_shuffle_aa,
    Aesni.mm_slli4, Aesni.mm_xor, nextKeyB, Aes.sub_bytes,
    readRange, xorBytes, lg, List.rotateLeft, Nat.xor_zero, Nat.zero_xor,
    Nat.xor_assoc, Nat.xor_comm, xor_lcomm]

theorem zipWith_take_length (f : Nat → Nat → Nat) :
    ∀ (l k : List Nat), l.zipWith f (k.take l.length) = l.zipWith f k := by
  intro l
  induction l with
  | nil => intro k; rfl
  | cons a l ih =>
    intro k
    cases k with
    | nil => rfl
    | cons b k =>
      simp only [List.length_cons, List.take_succ_cons, List.zipWith_cons_cons]
      rw [ih]

theorem xorBytes_key_congr (v k1 k2 : List Nat) (hl1 : v.length ≤ k1.length)
    (hl2 : v.length ≤ k2.length) (he : k1.take v.length = k2.take v.length) :
    xorBytes v k1 = xorBytes v k2 := by
  rw [xorBytes, xorBytes, List.drop_eq_nil_of_le hl1, List.drop_eq_nil_of_le hl2,
    List.append_nil, List.append_nil, ← zipWith_take_length _ v k1,
    ← zipWith_take_length _ v k2, he]

theorem length_rotl (l : List α) : l.rotateLeft.length = l.length := by
  rw [List.rotateLeft]
  split
  · rfl
  · rw [List.length_append, List.length_drop, List.length_take]
    omega

theorem schedule_core_length (w : List Nat) (rcon : Nat) :
    (Aes.schedule_core w rcon).length = w.length := by
  rw [Aes.schedule_core, List.length_set, sub_bytes_length, length_rotl]

theorem readRange_take (l : List α) (m i n : Nat) (h : i + n ≤ m) :
    readRange (l.take m) i n = readRange l i n := by
  rw [readRange, readRange, List.drop_take, List.take_take,
    Nat.min_eq_left (by omega)]

theorem readRange_append_left (l r : List α) (i n : Nat) (h : i + n ≤ l.length) :
    readRange (l ++ r) i n = readRange l i n := by
  rw [readRange, readRange, List.drop_append_of_le_length (by omega),
    List.take_append_of_le_length (by rw [List.length_drop]; omega)]

theorem readRange_readRange (l : List α) (i m j n : Nat) (h : j + n ≤ m) :
    readRange (readRange l i m) j n = readRange l (i + j) n := by
  rw [readRange, readRange, readRange, List.drop_take, List.take_take,
    Nat.min_eq_left (by omega), List.drop_drop]

theorem take_writeRange (l v : List α) (i : Nat) (h : i + v.length ≤ l.length) :
    (writeRange l i v).take (i + v.length) = l.take i ++ v := by
  rw [writeRange, List.take_append_eq_append_take,
    List.take_of_length_le (by rw [List.length_append, List.length_take]; omega),
    show i + v.length - (l.take i ++ v).length = 0 by
      rw [List.length_append, List.length_take]; omega,
    List.take_zero, List.append_nil]

theorem drop_writeRange (l v : List α) (i k : Nat) (hvl : i + v.length ≤ l.length)
    (hk : i + v.length ≤ k) :
    (writeRange l i v).drop k = l.drop k := by
  have e1 : (l.take i).drop k = ([] : List α) :=
    List.drop_eq_nil_of_le (by rw [List.length_take]; omega)
  have e2 : v.drop (k - (l.take i).length) = ([] : List α) :=
    List.drop_eq_nil_of_le (by rw [List.length_take]; omega)
  rw [writeRange, List.drop_append_eq_append_drop, List.drop_append_eq_append_drop,
    e1, List.nil_append, e2, List.nil_append, List.drop_drop]
  congr 1
  rw [List.length_append, List.length_take]
  omega

theorem writeRange_append (l v u : List α) (i : Nat)
    (h : i + v.length ≤ l.length) :
    writeRange (writeRange l i v) (i + v.length) u = writeRange l i (v ++ u) := by
  conv_lhs => rw [writeRange]
  rw [take_writeRange l v i h,
    drop_writeRange l v i (i + v.length + u.length) h (by omega),
    writeRange, List.length_append, ← Nat.add_assoc]
  simp [List.append_assoc]

theorem readRange_writeRange_inside (l v : List α) (i j n : Nat)
    (h1 : i + v.length ≤ l.length) (h2 : j + n ≤ v.length) :
    readRange (writeRange l i v) (i + j) n = readRange v j n := by
  have e1 : (l.take i).drop (i + j) = ([] : List α) :=
    List.drop_eq_nil_of_le (by rw [List.length_take]; omega)
  have e2 : i + j - (l.take i).length = j := by rw [List.length_take]; omega
  rw [readRange, writeRange, List.drop_append_eq_append_drop,
    List.drop_append_eq_append_drop, e1, List.nil_append, e2,
    List.take_append_eq_append_take,
    show n - (v.drop j).length = 0 by rw [List.length_drop]; omega,
    List.take_zero, List.append_nil]
  rfl

theorem readRange_writeRange_before (l v : List α) (i i' n : Nat)
    (h1 : i ≤ l.length) (h2 : i' + n ≤ i) :
    readRange (writeRange l i v) i' n = readRange l i' n := by
  have htl : (l.take i).length = i := by rw [List.length_take]; omega
  rw [readRange, writeRange, List.drop_append_eq_append_drop,
    List.drop_append_eq_append_drop,
    List.take_append_of_le_length (by
      rw [List.length_append, List.length_drop, List.length_drop, htl]; omega),
    List.take_append_of_le_length (by rw [List.length_drop, htl]; omega)]
  exact readRange_take l i i' n h2

theorem nextKeyA_length (p : List Nat) (rcon : Nat) (hp : p.length = 32) :
    (nextKeyA p rcon).length = 16 := by
  rw [nextKeyA]
  simp only [List.length_append, xorBytes_length, schedule_core_length,
    readRange_length, hp]
  norm_num

theorem nextKeyB_length (p : List Nat) (hp : p.length = 32) :
    (nextKeyB p).length = 16 := by
  rw [nextKeyB]
  simp only [List.length_append, xorBytes_length, sub_bytes_length,
    readRange_length, hp]
  norm_num

theorem chunksExact_single {n : Nat} (hn : 0 < n) (l : List α) (h : l.length = n) :
    chunksExact n l = [l] := by
  rw [chunksExact, dif_pos ⟨hn, by omega⟩, List.take_of_length_le (by omega),
    chunksExact, dif_neg (fun hh => by rw [List.length_drop] at hh; omega)]

theorem writeRange_acc (acc v : List Nat) (m : Nat) (hm : v.length ≤ m) :
    writeRange (acc ++ List.replicate m 0) acc.length v =
      (acc ++ v) ++ List.replicate (m - v.length) 0 := by
  rw [writeRange, List.take_left, List.drop_append_eq_append_drop,
    List.drop_eq_nil_of_le (by omega), List.nil_append, Nat.add_sub_cancel_left,
    List.drop_replicate]

theorem readRange_last32 (x kp kl : List Nat) (n : Nat) (hx : x.length = n)
    (hp : kp.length = 16) (hl : kl.length = 16) :
    readRange ((x ++ kp) ++ kl) n 32 = kp ++ kl := by
  rw [List.append_assoc, readRange, List.drop_left' hx,
    List.take_of_length_le (by rw [List.length_append, hp, hl])]

theorem derive_key_go_micro (buf : List Nat) (offset rcon : Nat)
    (hlen : buf.length = 160) (h32 : 32 ≤ offset) (hlt : offset < 160) :
    Aes.derive_key_go buf offset rcon =
      Aes.derive_key_go
        (writeRange buf offset
          (xorBytes
            (if offset % 32 = 0 then
              Aes.schedule_core (readRange buf (offset - 4) 4) rcon
             else if offset % 32 = 16 then
              Aes.sub_bytes (readRange buf (offset - 4) 4)
             else readRange buf (offset - 4) 4)
            (readRange buf (offset - 32) 4)))
        (offset + 4) (if offset % 32 = 0 then Aes.gmul2 rcon else rcon) := by
  have hr4 : (readRange buf (offset - 4) 4).length = 4 := by
    rw [readRange_length]
    omega
  have hvlen : (if offset % 32 = 0 then
      Aes.schedule_core (readRange buf (offset - 4) 4) rcon
    else if offset % 32 = 16 then
      Aes.sub_bytes (readRange buf (offset - 4) 4)
    else readRange buf (offset - 4) 4).length = 4 := by
    split_ifs
    · rw [schedule_core_length, hr4]
    · rw [sub_bytes_length, hr4]
    · exact hr4
  have hkey : ∀ v : List Nat, v.length = 4 →
      xorBytes v ((buf.take offset).drop (offset - 32)) =
        xorBytes v (readRange buf (offset - 32) 4) := by
    intro v hv
    refine xorBytes_key_congr v _ _ ?_ ?_ ?_
    · rw [List.length_drop, List.length_take]
      omega
    · rw [readRange_length]
      omega
    · rw [hv]
      show readRange (buf.take offset) (offset - 32) 4 =
        (readRange buf (offset - 32) 4).take 4
      rw [readRange_take buf offset (offset - 32) 4 (by omega), readRange,
        List.take_take, Nat.min_self]
  rw [Aes.derive_key_go, dif_neg (by omega)]
  simp only [beq_iff_eq]
  rw [readRange_take buf offset (offset - 4) 4 (by omega), hkey _ hvlen]


theorem derive_key_go_stepA (buf : List Nat) (offset rcon : Nat)
    (hlen : buf.length = 160) (hmod : offset % 32 = 0)
    (h32 : 32 ≤ offset) (hle : offset + 16 ≤ 160) :
    Aes.derive_key_go buf offset rcon =
      Aes.derive_key_go
        (writeRange buf offset (nextKeyA (readRange buf (offset - 32) 32) rcon))
        (offset + 16) (Aes.gmul2 rcon) := by
  rw [derive_key_go_micro buf offset rcon hlen h32 (by omega), if_pos hmod,
    if_pos hmod]
  set v0 := xorBytes (Aes.schedule_core (readRange buf (offset - 4) 4) rcon)
    (readRange buf (offset - 32) 4) with hv0
  have hv0len : v0.length = 4 := by
    rw [hv0, xorBytes_length, schedule_core_length, readRange_length]
    omega
  have hb1len : (writeRange buf offset v0).length = 160 := by
    rw [writeRange_length buf offset v0 (by omega), hlen]
  rw [derive_key_go_micro (writeRange buf offset v0) (offset + 4) (Aes.gmul2 rcon)
    hb1len (by omega) (by omega)]
  have hc1 : ¬((offset + 4) % 32 = 0) := by omega
  have hc2 : ¬((offset + 4) % 32 = 16) := by omega
  rw [if_neg hc1, if_neg hc2, if_neg hc1,
    show offset + 4 - 4 = offset from by omega,
    show offset + 4 - 32 = offset - 28 from by omega]
  have r1 : readRange (writeRange buf offset v0) offset 4 = v0 := by
    have h := readRange_writeRange_inside buf v0 offset 0 4 (by omega) (by omega)
    rw [Nat.add_zero] at h
    rw [h, readRange, List.drop_zero, List.take_of_length_le (by omega)]
  have r2 : readRange (writeRange buf offset v0) (offset - 28) 4 =
      readRange buf (offset - 28) 4 :=
    readRange_writeRange_before buf v0 offset (offset - 28) 4 (by omega) (by omega)
  rw [r1, r2]
  set v1 := xorBytes v0 (readRange buf (offset - 28) 4) with hv1
  have hv1len : v1.length = 4 := by rw [hv1, xorBytes_length, hv0len]
  have comp1 : writeRange (writeRange buf offset v0) (offset + 4) v1 =
      writeRange buf offset (v0 ++ v1) := by
    have h := writeRange_append buf v0 v1 offset (by omega)
    rw [hv0len] at h
    exact h
  have h01len : (v0 ++ v1).length = 8 := by
    rw [List.length_append, hv0len, hv1len]
  rw [comp1, show offset + 4 + 4 = offset + 8 from by omega]
  have hb2len : (writeRange buf offset (v0 ++ v1)).length = 160 := by
    rw [writeRange_length buf offset (v0 ++ v1) (by omega), hlen]
  rw [derive_key_go_micro (writeRange buf offset (v0 ++ v1)) (offset + 8)
    (Aes.gmul2 rcon) hb2len (by omega) (by omega)]
  have hc3 : ¬((offset + 8) % 32 = 0) := by omega
  have hc4 : ¬((offset + 8) % 32 = 16) := by omega
  rw [if_neg hc3, if_neg hc4, if_neg hc3,
    show offset + 8 - 4 = offset + 4 from by omega,
    show offset + 8 - 32 = offset - 24 from by omega]
  have r3 : readRange (writeRange buf offset (v0 ++ v1)) (offset + 4) 4 = v1 := by
    have h := readRange_writeRange_inside buf (v0 ++ v1) offset 4 4
      (by omega) (by omega)
    rw [h, readRange, List.drop_left' hv0len, List.take_of_length_le (by omega)]
  have r4 : readRange (writeRange buf offset (v0 ++ v1)) (offset - 24) 4 =
      readRange buf (offset - 24) 4 :=
    readRange_writeRange_before buf (v0 ++ v1) offset (offset - 24) 4
      (by omega) (by omega)
  rw [r3, r4]
  set v2 := xorBytes v1 (readRange buf (offset - 24) 4) with hv2
  have hv2len : v2.length = 4 := by rw [hv2, xorBytes_length, hv1len]
  have comp2 : writeRange (writeRange buf offset (v0 ++ v1)) (offset + 8) v2 =
      writeRange buf offset ((v0 ++ v1) ++ v2) := by
    have h := writeRange_append buf (v0 ++ v1) v2 offset (by omega)
    rw [h01len] at h
    exact h
  have h012len : ((v0 ++ v1) ++ v2).length = 12 := by
    rw [List.length_append, h01len, hv2len]
  rw [comp2, show offset + 8 + 4 = offset + 12 from by omega]
  have hb3len : (writeRange buf offset ((v0 ++ v1) ++ v2)).length = 160 := by
    rw [writeRange_length buf offset ((v0 ++ v1) ++ v2) (by omega), hlen]
  rw [derive_key_go_micro (writeRange buf offset ((v0 ++ v1) ++ v2)) (offset + 12)
    (Aes.gmul2 rcon) hb3len (by omega) (by omega)]
  have hc5 : ¬((offset + 12) % 32 = 0) := by omega
  have hc6 : ¬((offset + 12) % 32 = 16) := by omega
  rw [if_neg hc5, if_neg hc6, if_neg hc5,
    show offset + 12 - 4 = offset + 8 from by omega,
    show offset + 12 - 32 = offset - 20 from by omega]
  have r5 : readRange (writeRange buf offset ((v0 ++ v1) ++ v2)) (offset + 8) 4 =
      v2 := by
    have h := readRange_writeRange_inside buf ((v0 ++ v1) ++ v2) offset 8 4
      (by omega) (by omega)
    rw [h, readRange, List.drop_left' h01len, List.take_of_length_le (by omega)]
  have r6 : readRange (writeRange buf offset ((v0 ++ v1) ++ v2)) (offset - 20) 4 =
      readRange buf (offset - 20) 4 :=
    readRange_writeRange_before buf ((v0 ++ v1) ++ v2) offset (offset - 20) 4
      (by omega) (by omega)
  rw [r5, r6]
  set v3 := xorBytes v2 (readRange buf (offset - 20) 4) with hv3
  have comp3 : writeRange (writeRange buf offset ((v0 ++ v1) ++ v2)) (offset + 12)
      v3 = writeRange buf offset (((v0 ++ v1) ++ v2) ++ v3) := by
    have h := writeRange_append buf ((v0 ++ v1) ++ v2) v3 offset (by omega)
    rw [h012len] at h
    exact h
  rw [comp3, show offset + 12 + 4 = offset + 16 from by omega]
  have hN : nextKeyA (readRange buf (offset - 32) 32) rcon =
      ((v0 ++ v1) ++ v2) ++ v3 := by
    simp only [nextKeyA]
    rw [readRange_readRange buf (offset - 32) 32 28 4 (by omega),
      readRange_readRange buf (offset - 32) 32 0 4 (by omega),
      readRange_readRange buf (offset - 32) 32 4 4 (by omega),
      readRange_readRange buf (offset - 32) 32 8 4 (by omega),
      readRange_readRange buf (offset - 32) 32 12 4 (by omega),
      show offset - 32 + 0 = offset - 32 from by omega,
      show offset - 32 + 28 = offset - 4 from by omega,
      show offset - 32 + 4 = offset - 28 from by omega,
      show offset - 32 + 8 = offset - 24 from by omega,
      show offset - 32 + 12 = offset - 20 from by omega,
      ← hv0, ← hv1, ← hv2, ← hv3]
  rw [hN]

theorem derive_key_go_stepB (buf : List Nat) (offset rcon : Nat)
    (hlen : buf.length = 160) (hmod : offset % 32 = 16)
    (h32 : 32 ≤ offset) (hle : offset + 16 ≤ 160) :
    Aes.derive_key_go buf offset rcon =
      Aes.derive_key_go
        (writeRange buf offset (nextKeyB (readRange buf (offset - 32) 32)))
        (offset + 16) rcon := by
  have hm0 : ¬(offset % 32 = 0) := by omega
  rw [derive_key_go_micro buf offset rcon hlen h32 (by omega), if_neg hm0,
    if_pos hmod, if_neg hm0]
  set v0 := xorBytes (Aes.sub_bytes (readRange buf (offset - 4) 4))
    (readRange buf (offset - 32) 4) with hv0
  have hv0len : v0.length = 4 := by
    rw [hv0, xorBytes_length, sub_bytes_length, readRange_length]
    omega
  have hb1len : (writeRange buf offset v0).length = 160 := by
    rw [writeRange_length buf offset v0 (by omega), hlen]
  rw [derive_key_go_micro (writeRange buf offset v0) (offset + 4) rcon
    hb1len (by omega) (by omega)]
  have hc1 : ¬((offset + 4) % 32 = 0) := by omega
  have hc2 : ¬((offset + 4) % 32 = 16) := by omega
  rw [if_neg hc1, if_neg hc2, if_neg hc1,
    show offset + 4 - 4 = offset from by omega,
    show offset + 4 - 32 = offset - 28 from by omega]
  have r1 : readRange (writeRange buf offset v0) offset 4 = v0 := by
    have h := readRange_writeRange_inside buf v0 offset 0 4 (by omega) (by omega)
    rw [Nat.add_zero] at h
    rw [h, readRange, List.drop_zero, List.take_of_length_le (by omega)]
  have r2 : readRange (writeRange buf offset v0) (offset - 28) 4 =
      readRange buf (offset - 28) 4 :=
    readRange_writeRange_before buf v0 offset (offset - 28) 4 (by omega) (by omega)
  rw [r1, r2]
  set v1 := xorBytes v0 (readRange buf (offset - 28) 4) with hv1
  have hv1len : v1.length = 4 := by rw [hv1, xorBytes_length, hv0len]
  have comp1 : writeRange (writeRange buf offset v0) (offset + 4) v1 =
      writeRange buf offset (v0 ++ v1) := by
    have h := writeRange_append buf v0 v1 offset (by omega)
    rw [hv0len] at h
    exact h
  have h01len : (v0 ++ v1).length = 8 := by
    rw [List.length_append, hv0len, hv1len]
  rw [comp1, show offset + 4 + 4 = offset + 8 from by omega]
  have hb2len : (writeRange buf offset (v0 ++ v1)).length = 160 := by
    rw [writeRange_length buf offset (v0 ++ v1) (by omega), hlen]
  rw [derive_key_go_micro (writeRange buf offset (v0 ++ v1)) (offset + 8)
    rcon hb2len (by omega) (by omega)]
  have hc3 : ¬((offset + 8) % 32 = 0) := by omega
  have hc4 : ¬((offset + 8) % 32 = 16) := by omega
  rw [if_neg hc3, if_neg hc4, if_neg hc3,
    show offset + 8 - 4 = offset + 4 from by omega,
    show offset + 8 - 32 = offset - 24 from by omega]
  have r3 : readRange (writeRange buf offset (v0 ++ v1)) (offset + 4) 4 = v1 := by
    have h := readRange_writeRange_inside buf (v0 ++ v1) offset 4 4
      (by omega) (by omega)
    rw [h, readRange, List.drop_left' hv0len, List.take_of_length_le (by omega)]
  have r4 : readRange (writeRange buf offset (v0 ++ v1)) (offset - 24) 4 =
      readRange buf (offset - 24) 4 :=
    readRange_writeRange_before buf (v0 ++ v1) offset (offset - 24) 4
      (by omega) (by omega)
  rw [r3, r4]
  set v2 := xorBytes v1 (readRange buf (offset - 24) 4) with hv2
  have hv2len : v2.length = 4 := by rw [hv2, xorBytes_length, hv1len]
  have comp2 : writeRange (writeRange buf offset (v0 ++ v1)) (offset + 8) v2 =
      writeRange buf offset ((v0 ++ v1) ++ v2) := by
    have h := writeRange_append buf (v0 ++ v1) v2 offset (by omega)
    rw [h01len] at h
    exact h
  have h012len : ((v0 ++ v1) ++ v2).length = 12 := by
    rw [List.length_append, h01len, hv2len]
  rw [comp2, show offset + 8 + 4 = offset + 12 from by omega]
  have hb3len : (writeRange buf offset ((v0 ++ v1) ++ v2)).length = 160 := by
    rw [writeRange_length buf offset ((v0 ++ v1) ++ v2) (by omega), hlen]
  rw [derive_key_go_micro (writeRange buf offset ((v0 ++ v1) ++ v2)) (offset + 12)
    rcon hb3len (by omega) (by omega)]
  have hc5 : ¬((offset + 12) % 32 = 0) := by omega
  have hc6 : ¬((offset + 12) % 32 = 16) := by omega
  rw [if_neg hc5, if_neg hc6, if_neg hc5,
    show offset + 12 - 4 = offset + 8 from by omega,
    show offset + 12 - 32 = offset - 20 from by omega]
  have r5 : readRange (writeRange buf offset ((v0 ++ v1) ++ v2)) (offset + 8) 4 =
      v2 := by
    have h := readRange_writeRange_inside buf ((v0 ++ v1) ++ v2) offset 8 4
      (by omega) (by omega)
    rw [h, readRange, List.drop_left' h01len, List.take_of_length_le (by omega)]
  have r6 : readRange (writeRange buf offset ((v0 ++ v1) ++ v2)) (offset - 20) 4 =
      readRange buf (offset - 20) 4 :=
    readRange_writeRange_before buf ((v0 ++ v1) ++ v2) offset (offset - 20) 4
      (by omega) (by omega)
  rw [r5, r6]
  set v3 := xorBytes v2 (readRange buf (offset - 20) 4) with hv3
  have comp3 : writeRange (writeRange buf offset ((v0 ++ v1) ++ v2)) (offset + 12)
      v3 = writeRange buf offset (((v0 ++ v1) ++ v2) ++ v3) := by
    have h := writeRange_append buf ((v0 ++ v1) ++ v2) v3 offset (by omega)
    rw [h012len] at h
    exact h
  rw [comp3, show offset + 12 + 4 = offset + 16 from by omega]
  have hN : nextKeyB (readRange buf (offset - 32) 32) =
      ((v0 ++ v1) ++ v2) ++ v3 := by
    simp only [nextKeyB]
    rw [readRange_readRange buf (offset - 32) 32 28 4 (by omega),
      readRange_readRange buf (offset - 32) 32 0 4 (by omega),
      readRange_readRange buf (offset - 32) 32 4 4 (by omega),
      readRange_readRange buf (offset - 32) 32 8 4 (by omega),
      readRange_readRange buf (offset - 32) 32 12 4 (by omega),
      show offset - 32 + 0 = offset - 32 from by omega,
      show offset - 32 + 28 = offset - 4 from by omega,
      show offset - 32 + 4 = offset - 28 from by omega,
      show offset - 32 + 8 = offset - 24 from by omega,
      show offset - 32 + 12 = offset - 20 from by omega,
      ← hv0, ← hv1, ← hv2, ← hv3]
  rw [hN]



theorem chunksExact_snoc16 (x k : List Nat) (m : Nat) (hx : x.length = 16 * m)
    (hk : k.length = 16) :
    chunksExact 16 (x ++ k) = chunksExact 16 x ++ [k] := by
  rw [chunksExact_append (by norm_num) m x k hx,
    chunksExact_single (by norm_num) k hk]

theorem writeRange_acc' (acc v : List Nat) (n m : Nat) (hn : acc.length = n)
    (hm : v.length ≤ m) :
    writeRange (acc ++ List.replicate m 0) n v =
      (acc ++ v) ++ List.replicate (m - v.length) 0 := by
  subst hn
  exact writeRange_acc acc v m hm

theorem derive_key_eq (seed : List Nat) (hs : seed.length = 32) :
    chunksExact 16 (Aes.derive_key seed) =
      Aesni.derive_key (seed.take 16) (seed.drop 16) := by
  have ht1 : (seed.take 16).length = 16 := by rw [List.length_take]; omega
  have ht3 : (seed.drop 16).length = 16 := by rw [List.length_drop]; omega
  set t1 := seed.take 16 with ht1d
  set t3 := seed.drop 16 with ht3d
  have hacc0 : (t1 ++ t3).length = 32 := by rw [List.length_append, ht1, ht3]
  rw [Aes.derive_key, List.take_of_length_le (by omega),
    ← List.take_append_drop 16 seed, ← ht1d, ← ht3d]
  rw [derive_key_go_stepA ((t1 ++ t3) ++ List.replicate 128 0) 32 1
    (by simp [ht1, ht3]) (by norm_num) (by norm_num) (by norm_num),
    show (32:Nat) - 32 = 0 from by norm_num,
    show (32:Nat) + 16 = 48 from by norm_num,
    show Aes.gmul2 1 = 2 from by decide]
  have e1 : readRange ((t1 ++ t3) ++ List.replicate 128 0) 0 32 = t1 ++ t3 := by
    rw [readRange_append_left _ _ 0 32 (by omega), readRange, List.drop_zero,
      List.take_of_length_le (by omega)]
  rw [e1]
  set K2 := nextKeyA (t1 ++ t3) 1 with hK2
  have hK2len : K2.length = 16 := by
    rw [hK2]
    exact nextKeyA_length _ 1 hacc0
  rw [writeRange_acc' (t1 ++ t3) K2 32 128 hacc0 (by omega), hK2len,
    show (128:Nat) - 16 = 112 from by norm_num]
  have hacc1 : ((t1 ++ t3) ++ K2).length = 48 := by
    simp [ht1, ht3, hK2len]
  rw [derive_key_go_stepB (((t1 ++ t3) ++ K2) ++ List.replicate 112 0) 48 2
    (by simp [ht1, ht3, hK2len]) (by norm_num) (by norm_num) (by norm_num),
    show (48:Nat) - 32 = 16 from by norm_num,
    show (48:Nat) + 16 = 64 from by norm_num]
  have e2 : readRange (((t1 ++ t3) ++ K2) ++ List.replicate 112 0) 16 32 = t3 ++ K2 := by
    rw [readRange_append_left _ _ 16 32 (by omega)]
    exact readRange_last32 t1 t3 K2 16 ht1 ht3 hK2len
  rw [e2]
  set K3 := nextKeyB (t3 ++ K2) with hK3
  have hK3len : K3.length = 16 := by
    rw [hK3]
    exact nextKeyB_length _ (by simp [ht3, hK2len])
  rw [writeRange_acc' ((t1 ++ t3) ++ K2) K3 48 112 hacc1 (by omega), hK3len,
    show (112:Nat) - 16 = 96 from by norm_num]
  have hacc2 : (((t1 ++ t3) ++ K2) ++ K3).length = 64 := by
    simp [ht1, ht3, hK2len, hK3len]
  rw [derive_key_go_stepA ((((t1 ++ t3) ++ K2) ++ K3) ++ List.replicate 96 0) 64 2
    (by simp [ht1, ht3, hK2len, hK3len]) (by norm_num) (by norm_num) (by norm_num),
    show (64:Nat) - 32 = 32 from by norm_num,
    show (64:Nat) + 16 = 80 from by norm_num,
    show Aes.gmul2 2 = 4 from by decide]
  have e3 : readRange ((((t1 ++ t3) ++ K2) ++ K3) ++ List.replicate 96 0) 32 32 = K2 ++ K3 := by
    rw [readRange_append_left _ _ 32 32 (by omega)]
    exact readRange_last32 (t1 ++ t3) K2 K3 32 hacc0 hK2len hK3len
  rw [e3]
  set K4 := nextKeyA (K2 ++ K3) 2 with hK4
  have hK4len : K4.length = 16 := by
    rw [hK4]
    exact nextKeyA_length _ 2 (by simp [hK2len, hK3len])
  rw [writeRange_acc' (((t1 ++ t3) ++ K2) ++ K3) K4 64 96 hacc2 (by omega), hK4len,
    show (96:Nat) - 16 = 80 from by norm_num]
  have hacc3 : ((((t1 ++ t3) ++ K2) ++ K3) ++ K4).length = 80 := by
    simp [ht1, ht3, hK2len, hK3len, hK4len]
  rw [derive_key_go_stepB (((((t1 ++ t3) ++ K2) ++ K3) ++ K4) ++ List.replicate 80 0) 80 4
    (by simp [ht1, ht3, hK2len, hK3len, hK4len]) (by norm_num) (by norm_num) (by norm_num),
    show (80:Nat) - 32 = 48 from by norm_num,
    show (80:Nat) + 16 = 96 from by norm_num]
  have e4 : readRange (((((t1 ++ t3) ++ K2) ++ K3) ++ K4) ++ List.replicate 80 0) 48 32 = K3 ++ K4 := by
    rw [readRange_append_left _ _ 48 32 (by omega)]
    exact readRange_last32 ((t1 ++ t3) ++ K2) K3 K4 48 hacc1 hK3len hK4len
  rw [e4]
  set K5 := nextKeyB (K3 ++ K4) with hK5
  have hK5len : K5.length = 16 := by
    rw [hK5]
    exact nextKeyB_length _ (by simp [hK3len, hK4len])
  rw [writeRange_acc' ((((t1 ++ t3) ++ K2) ++ K3) ++ K4) K5 80 80 hacc3 (by omega), hK5len,
    show (80:Nat) - 16 = 64 from by norm_num]
  have hacc4 : (((((t1 ++ t3) ++ K2) ++ K3) ++ K4) ++ K5).length = 96 := by
    simp [ht1, ht3, hK2len, hK3len, hK4len, hK5len]
  rw [derive_key_go_stepA ((((((t1 ++ t3) ++ K2) ++ K3) ++ K4) ++ K5) ++ List.replicate 64 0) 96 4
    (by simp [ht1, ht3, hK2len, hK3len, hK4len, hK5len]) (by norm_num) (by norm_num) (by norm_num),
    show (96:Nat) - 32 = 64 from by norm_num,
    show (96:Nat) + 16 = 112 from by norm_num,
    show Aes.gmul2 4 = 8 from by decide]
  have e5 : readRange ((((((t1 ++ t3) ++ K2) ++ K3) ++ K4) ++ K5) ++ List.replicate 64 0) 64 32 = K4 ++ K5 := by
    rw [readRange_append_left _ _ 64 32 (by omega)]
    exact readRange_last32 (((t1 ++ t3) ++ K2) ++ K3) K4 K5 64 hacc2 hK4len hK5len
  rw [e5]
  set K6 := nextKeyA (K4 ++ K5) 4 with hK6
  have hK6len : K6.length = 16 := by
    rw [hK6]
    exact nextKeyA_length _ 4 (by simp [hK4len, hK5len])
  rw [writeRange_acc' (((((t1 ++ t3) ++ K2) ++ K3) ++ K4) ++ K5) K6 96 64 hacc4 (by omega), hK6len,
    show (64:Nat) - 16 = 48 from by norm_num]
  have hacc5 : ((((((t1 ++ t3) ++ K2) ++ K3) ++ K4) ++ K5) ++ K6).length = 112 := by
    simp [ht1, ht3, hK2len, hK3len, hK4len, hK5len, hK6len]
  rw [derive_key_go_stepB (((((((t1 ++ t3) ++ K2) ++ K3) ++ K4) ++ K5) ++ K6) ++ List.replicate 48 0) 112 8
    (by simp [ht1, ht3, hK2len, hK3len, hK4len, hK5len, hK6len]) (by norm_num) (by norm_num) (by norm_num),
    show (112:Nat) - 32 = 80 from by norm_num,
    show (112:Nat) + 16 = 128 from by norm_num]
  have e6 : readRange (((((((t1 ++ t3) ++ K2) ++ K3) ++ K4) ++ K5) ++ K6) ++ List.replicate 48 0) 80 32 = K5 ++ K6 := by
    rw [readRange_append_left _ _ 80 32 (by omega)]
    exact readRange_last32 ((((t1 ++ t3) ++ K2) ++ K3) ++ K4) K5 K6 80 hacc3 hK5len hK6len
  rw [e6]
  set K7 := nextKeyB (K5 ++ K6) with hK7
  have hK7len : K7.length = 16 := by
    rw [hK7]
    exact nextKeyB_length _ (by simp [hK5len, hK6len])
  rw [writeRange_acc' ((((((t1 ++ t3) ++ K2) ++ K3) ++ K4) ++ K5) ++ K6) K7 112 48 hacc5 (by omega), hK7len,
    show (48:Nat) - 16 = 32 from by norm_num]
  have hacc6 : (((((((t1 ++ t3) ++ K2) ++ K3) ++ K4) ++ K5) ++ K6) ++ K7).length = 128 := by
    simp [ht1, ht3, hK2len, hK3len, hK4len, hK5len, hK6len, hK7len]
  rw [derive_key_go_stepA ((((((((t1 ++ t3) ++ K2) ++ K3) ++ K4) ++ K5) ++ K6) ++ K7) ++ List.replicate 32 0) 128 8
    (by simp [ht1, ht3, hK2len, hK3len, hK4len, hK5len, hK6len, hK7len]) (by norm_num) (by norm_num) (by norm_num),
    show (128:Nat) - 32 = 96 from by norm_num,
    show (128:Nat) + 16 = 144 from by norm_num,
    show Aes.gmul2 8 = 16 from by decide]
  have e7 : readRange ((((((((t1 ++ t3) ++ K2) ++ K3) ++ K4) ++ K5) ++ K6) ++ K7) ++ List.replicate 32 0) 96 32 = K6 ++ K7 := by
    rw [readRange_append_left _ _ 96 32 (by omega)]
    exact readRange_last32 (((((t1 ++ t3) ++ K2) ++ K3) ++ K4) ++ K5) K6 K7 96 hacc4 hK6len hK7len
  rw [e7]
  set K8 := nextKeyA (K6 ++ K7) 8 with hK8
  have hK8len : K8.length = 16 := by
    rw [hK8]
    exact nextKeyA_length _ 8 (by simp [hK6len, hK7len])
  rw [writeRange_acc' (((((((t1 ++ t3) ++ K2) ++ K3) ++ K4) ++ K5) ++ K6) ++ K7) K8 128 32 hacc6 (by omega), hK8len,
    show (32:Nat) - 16 = 16 from by norm_num]
  have hacc7 : ((((((((t1 ++ t3) ++ K2) ++ K3) ++ K4) ++ K5) ++ K6) ++ K7) ++ K8).length = 144 := by
    simp [ht1, ht3, hK2len, hK3len, hK4len, hK5len, hK6len, hK7len, hK8len]
  rw [derive_key_go_stepB (((((((((t1 ++ t3) ++ K2) ++ K3) ++ K4) ++ K5) ++ K6) ++ K7) ++ K8) ++ List.replicate 16 0) 144 16
    (by simp [ht1, ht3, hK2len, hK3len, hK4len, hK5len, hK6len, hK7len, hK8len]) (by norm_num) (by norm_num) (by norm_num),
    show (144:Nat) - 32 = 112 from by norm_num,
    show (144:Nat) + 16 = 160 from by norm_num]
  have e8 : readRange (((((((((t1 ++ t3) ++ K2) ++ K3) ++ K4) ++ K5) ++ K6) ++ K7) ++ K8) ++ List.replicate 16 0) 112 32 = K7 ++ K8 := by
    rw [readRange_append_left _ _ 112 32 (by omega)]
    exact readRange_last32 ((((((t1 ++ t3) ++ K2) ++ K3) ++ K4) ++ K5) ++ K6) K7 K8 112 hacc5 hK7len hK8len
  rw [e8]
  set K9 := nextKeyB (K7 ++ K8) with hK9
  have hK9len : K9.length = 16 := by
    rw [hK9]
    exact nextKeyB_length _ (by simp [hK7len, hK8len])
  rw [writeRange_acc' ((((((((t1 ++ t3) ++ K2) ++ K3) ++ K4) ++ K5) ++ K6) ++ K7) ++ K8) K9 144 16 hacc7 (by omega), hK9len,
    show (16:Nat) - 16 = 0 from by norm_num]
  rw [List.replicate_zero, List.append_nil, Aes.derive_key_go,
    dif_pos (by norm_num)]
  rw [chunksExact_snoc16 ((((((((t1 ++ t3) ++ K2) ++ K3) ++ K4) ++ K5) ++ K6) ++ K7) ++ K8) K9 9 (by simp [ht1, ht3, hK2len, hK3len, hK4len, hK5len, hK6len, hK7len, hK8len]) hK9len]
  rw [chunksExact_snoc16 (((((((t1 ++ t3) ++ K2) ++ K3) ++ K4) ++ K5) ++ K6) ++ K7) K8 8 (by simp [ht1, ht3, hK2len, hK3len, hK4len, hK5len, hK6len, hK7len]) hK8len]
  rw [chunksExact_snoc16 ((((((t1 ++ t3) ++ K2) ++ K3) ++ K4) ++ K5) ++ K6) K7 7 (by simp [ht1, ht3, hK2len, hK3len, hK4len, hK5len, hK6len]) hK7len]
  rw [chunksExact_snoc16 (((((t1 ++ t3) ++ K2) ++ K3) ++ K4) ++ K5) K6 6 (by simp [ht1, ht3, hK2len, hK3len, hK4len, hK5len]) hK6len]
  rw [chunksExact_snoc16 ((((t1 ++ t3) ++ K2) ++ K3) ++ K4) K5 5 (by simp [ht1, ht3, hK2len, hK3len, hK4len]) hK5len]
  rw [chunksExact_snoc16 (((t1 ++ t3) ++ K2) ++ K3) K4 4 (by simp [ht1, ht3, hK2len, hK3len]) hK4len]
  rw [chunksExact_snoc16 ((t1 ++ t3) ++ K2) K3 3 (by simp [ht1, ht3, hK2len]) hK3len]
  rw [chunksExact_snoc16 (t1 ++ t3) K2 2 (by simp [ht1, ht3]) hK2len]
  rw [chunksExact_snoc16 t1 t3 1 (by simp [ht1]) ht3,
    chunksExact_single (by norm_num) t1 ht1]
  simp only [Aesni.derive_key]
  rw [assist1_eq t1 t3 ht1 ht3 1, ← hK2,
    assist2_eq K2 t3 hK2len ht3, ← hK3,
    assist1_eq K2 K3 hK2len hK3len 2, ← hK4,
    assist2_eq K4 K3 hK4len hK3len, ← hK5,
    assist1_eq K4 K5 hK4len hK5len 4, ← hK6,
    assist2_eq K6 K5 hK6len hK5len, ← hK7,
    assist1_eq K6 K7 hK6len hK7len 8, ← hK8,
    assist2_eq K8 K7 hK8len hK7len, ← hK9]
  simp

/-! ## init_scratchpad correspondence -/

theorem chunksExact_flatten_map (L : List (List Nat))
    (h : ∀ c ∈ L, c.length = 128) :
    chunksExact 16 L.flatten = (L.map (chunksExact 16)).flatten := by
  induction L with
  | nil =>
    rw [List.flatten_nil, List.map_nil, List.flatten_nil, chunksExact,
      dif_neg (fun hh => by have := hh.2; simp only [List.length_nil] at this; omega)]
  | cons c rest ih =>
    rw [List.flatten_cons, List.map_cons, List.flatten_cons,
      chunksExact_append (by norm_num) 8 c rest.flatten
        (by rw [h c (List.mem_cons_self c rest)]),
      ih (fun d hd => h d (List.mem_cons_of_mem c hd))]

theorem init_scratchpad_corr (keccac sp : List Nat) (hk : keccac.length = 200)
    (hsp : sp.length = 2 ^ 21) :
    Aesni.init_scratchpad (chunksExact 16 (keccac.take 192)) (chunksExact 16 sp) =
      chunksExact 16 (Aes.init_scratchpad keccac sp) := by
  have h16 : (0:Nat) < 16 := by norm_num
  have hspV : (chunksExact 16 sp).length = 131072 := by
    rw [chunksExact_length h16, hsp]
    norm_num
  have hseedlen : (keccac.take 32).length = 32 := by rw [List.length_take]; omega
  have hblen : (readRange keccac 64 128).length = 128 := by
    rw [readRange_length]
    omega
  have hg0 : (chunksExact 16 (keccac.take 192)).getD 0 [] =
      (keccac.take 32).take 16 := by
    rw [chunksExact_getD h16 0 _ (by rw [List.length_take]; omega),
      show (16:Nat) * 0 = 0 from by norm_num, List.drop_zero, List.take_take,
      List.take_take]
    norm_num
  have hg1 : (chunksExact 16 (keccac.take 192)).getD 1 [] =
      (keccac.take 32).drop 16 := by
    rw [chunksExact_getD h16 1 _ (by rw [List.length_take]; omega),
      show (16:Nat) * 1 = 16 from by norm_num, List.drop_take, List.drop_take,
      List.take_take]
    norm_num
  have hkeys : Aesni.derive_key ((chunksExact 16 (keccac.take 192)).getD 0 [])
      ((chunksExact 16 (keccac.take 192)).getD 1 []) =
      chunksExact 16 (Aes.derive_key (keccac.take 32)) := by
    rw [hg0, hg1, derive_key_eq (keccac.take 32) hseedlen]
  have hblocks : readRange (chunksExact 16 (keccac.take 192)) 4 8 =
      chunksExact 16 (readRange keccac 64 128) := by
    rw [readRange, ← chunksExact_drop h16 4, ← chunksExact_take h16 8,
      show (16:Nat) * 4 = 64 from by norm_num,
      show (16:Nat) * 8 = 128 from by norm_num, List.drop_take, readRange]
    norm_num [List.take_take]
  simp only [Aesni.init_scratchpad, Aes.init_scratchpad]
  rw [hkeys, hblocks, hspV, hsp,
    show (131072:Nat) / 8 = 16384 from by norm_num,
    show (131072:Nat) / 8 * 8 = 131072 from by norm_num,
    show (2 ^ 21:Nat) / 128 = 16384 from by norm_num,
    show (16384:Nat) * 128 = 2 ^ 21 from by norm_num,
    List.drop_eq_nil_of_le (by rw [hspV]),
    List.drop_eq_nil_of_le (le_of_eq hsp),
    List.append_nil, List.append_nil,
    init_chunks_corr _ 16384 _ hblen,
    chunksExact_flatten_map _ (explode_chunks_mem_length _ 16384 _ hblen)]

/-! ## Implode correspondence -/

theorem chunksExact_mm_xor : ∀ (n : Nat) (a b : List Nat),
    a.length = b.length → a.length ≤ 16 * n →
    chunksExact 16 (xorBytes a b) =
      List.zipWith Aesni.mm_xor (chunksExact 16 a) (chunksExact 16 b) := by
  intro n
  induction n with
  | zero =>
    intro a b hab hn
    have ha : a = [] := List.eq_nil_of_length_eq_zero (by omega)
    have hb : b = [] := List.eq_nil_of_length_eq_zero (by omega)
    subst ha
    subst hb
    have h0 : chunksExact 16 ([] : List Nat) = ([] : List (List Nat)) := by
      rw [chunksExact,
        dif_neg (fun hh => by have := hh.2; simp only [List.length_nil] at this; omega)]
    rw [show xorBytes [] [] = ([] : List Nat) from rfl, h0, List.zipWith_nil_left]
  | succ n ih =>
    intro a b hab hn
    rw [xorBytes_eq_zipWith a b (le_of_eq hab)]
    by_cases h : 16 ≤ a.length
    · have hz : (a.zipWith (· ^^^ ·) b).length = a.length := by
        rw [List.length_zipWith]
        omega
      have haunfold : chunksExact 16 a = a.take 16 :: chunksExact 16 (a.drop 16) := by
        rw [chunksExact, dif_pos ⟨by norm_num, h⟩]
      have hbunfold : chunksExact 16 b = b.take 16 :: chunksExact 16 (b.drop 16) := by
        rw [chunksExact, dif_pos ⟨by norm_num, show 16 ≤ b.length by omega⟩]
      conv_lhs => rw [chunksExact, dif_pos ⟨by norm_num, by omega⟩]
      rw [haunfold, hbunfold, List.zipWith_cons_cons, List.take_zipWith,
        List.drop_zipWith,
        ← xorBytes_eq_zipWith (a.drop 16) (b.drop 16)
          (by rw [List.length_drop, List.length_drop]; omega),
        ih (a.drop 16) (b.drop 16)
          (by rw [List.length_drop, List.length_drop]; omega)
          (by rw [List.length_drop]; omega)]
      rfl
    · have h1 : chunksExact 16 (a.zipWith (· ^^^ ·) b) = ([] : List (List Nat)) := by
        rw [chunksExact, dif_neg]
        intro hh
        rw [List.length_zipWith] at hh
        omega
      have h2 : chunksExact 16 a = ([] : List (List Nat)) := by
        rw [chunksExact, dif_neg (fun hh => by omega)]
      rw [h1, h2, List.zipWith_nil_left]

theorem chunks8_chunks16 : ∀ (n : Nat) (l : List Nat), l.length ≤ 128 * n →
    chunksExact 8 (chunksExact 16 l) = (chunksExact 128 l).map (chunksExact 16) := by
  intro n
  induction n with
  | zero =>
    intro l hl
    have : l = [] := List.eq_nil_of_length_eq_zero (by omega)
    subst this
    have h16 : chunksExact 16 ([] : List Nat) = ([] : List (List Nat)) := by
      rw [chunksExact,
        dif_neg (fun hh => by have := hh.2; simp only [List.length_nil] at this; omega)]
    have h128 : chunksExact 128 ([] : List Nat) = ([] : List (List Nat)) := by
      rw [chunksExact,
        dif_neg (fun hh => by have := hh.2; simp only [List.length_nil] at this; omega)]
    have h8 : chunksExact 8 ([] : List (List Nat)) = ([] : List (List (List Nat))) := by
      rw [chunksExact,
        dif_neg (fun hh => by have := hh.2; simp only [List.length_nil] at this; omega)]
    rw [h16, h8, h128, List.map_nil]
  | succ n ih =>
    intro l hl
    by_cases h : 128 ≤ l.length
    · have hc16len : (chunksExact 16 l).length = l.length / 16 :=
        chunksExact_length (by norm_num) l
      have h8le : 8 ≤ (chunksExact 16 l).length := by
        rw [hc16len]
        omega
      conv_lhs => rw [chunksExact, dif_pos ⟨by norm_num, h8le⟩]
      conv_rhs => rw [chunksExact, dif_pos ⟨by norm_num, h⟩]
      rw [List.map_cons]
      congr 1
      · rw [← chunksExact_take (by norm_num) 8 l,
          show (16:Nat) * 8 = 128 from by norm_num]
      · rw [← chunksExact_drop (by norm_num) 8 l,
          show (16:Nat) * 8 = 128 from by norm_num]
        exact ih (l.drop 128) (by rw [List.length_drop]; omega)
    · have hc16len : (chunksExact 16 l).length = l.length / 16 :=
        chunksExact_length (by norm_num) l
      have h8 : chunksExact 8 (chunksExact 16 l) = ([] : List (List (List Nat))) := by
        rw [chunksExact, dif_neg]
        intro hh
        rw [hc16len] at hh
        omega
      have h128 : chunksExact 128 l = ([] : List (List Nat)) := by
        rw [chunksExact, dif_neg (fun hh => by omega)]
      rw [h8, h128, List.map_nil]

theorem implode_fold_length (keys : List (List Nat)) :
    ∀ (C : List (List Nat)) (fb : List Nat), fb.length = 128 →
    (C.foldl (fun fb c => Aes.encrypt_blocks keys (xorBytes fb c)) fb).length
      = 128 := by
  intro C
  induction C with
  | nil => intro fb hfb; exact hfb
  | cons c C ih =>
    intro fb hfb
    rw [List.foldl_cons]
    exact ih _ (by rw [encrypt_blocks_length, xorBytes_length, hfb])

theorem implode_fold (keys : List (List Nat)) :
    ∀ (C : List (List Nat)) (fb : List Nat), fb.length = 128 →
    (∀ c ∈ C, c.length = 128) →
    (C.map (chunksExact 16)).foldl
      (fun fbV cV => fbV.zipWith (fun block sl =>
        Aesni.encrypt_block keys (Aesni.mm_xor block sl)) cV)
      (chunksExact 16 fb) =
    chunksExact 16
      (C.foldl (fun fb c => Aes.encrypt_blocks keys (xorBytes fb c)) fb) := by
  intro C
  induction C with
  | nil => intro fb _ _; rfl
  | cons c C ih =>
    intro fb hfb hC
    rw [List.map_cons, List.foldl_cons, List.foldl_cons]
    have hc : c.length = 128 := hC c (List.mem_cons_self c C)
    have hstep : (chunksExact 16 fb).zipWith (fun block sl =>
        Aesni.encrypt_block keys (Aesni.mm_xor block sl)) (chunksExact 16 c) =
        chunksExact 16 (Aes.encrypt_blocks keys (xorBytes fb c)) := by
      rw [encrypt_blocks_chunks keys _ (by rw [xorBytes_length, hfb]),
        chunksExact_mm_xor 8 fb c (by omega) (by omega), List.map_zipWith]
    rw [hstep]
    exact ih _ (by rw [encrypt_blocks_length, xorBytes_length, hfb])
      (fun d hd => hC d (List.mem_cons_of_mem c hd))

theorem finalize_state_corr (keccac : List Nat) (spV : List (List Nat))
    (hk : keccac.length = 200)
    (hlen : spV.length = 131072) (hblk : ∀ c ∈ spV, c.length = 16) :
    (Aesni.finalize_state (chunksExact 16 (keccac.take 192)) spV).flatten
        ++ keccac.drop 192 =
      Aes.finalize_state keccac spV.flatten := by
  have h16 : (0:Nat) < 16 := by norm_num
  have hrr : (readRange keccac 64 128).length = 128 := by
    rw [readRange_length]
    omega
  have hg2 : (chunksExact 16 (keccac.take 192)).getD 2 [] =
      (readRange keccac 32 32).take 16 := by
    rw [chunksExact_getD h16 2 _ (by rw [List.length_take]; omega),
      show (16:Nat) * 2 = 32 from by norm_num, readRange]
    simp [List.drop_take, List.take_take]
  have hg3 : (chunksExact 16 (keccac.take 192)).getD 3 [] =
      (readRange keccac 32 32).drop 16 := by
    rw [chunksExact_getD h16 3 _ (by rw [List.length_take]; omega),
      show (16:Nat) * 3 = 48 from by norm_num, readRange]
    simp [List.drop_take, List.take_take, List.drop_drop]
  have hseed : (readRange keccac 32 32).length = 32 := by
    rw [readRange_length]
    omega
  have hkeys : Aesni.derive_key ((chunksExact 16 (keccac.take 192)).getD 2 [])
      ((chunksExact 16 (keccac.take 192)).getD 3 []) =
      chunksExact 16 (Aes.derive_key (readRange keccac 32 32)) := by
    rw [hg2, hg3, derive_key_eq _ hseed]
  have hf0 : (chunksExact 16 (keccac.take 192)).drop 4 =
      chunksExact 16 (readRange keccac 64 128) := by
    rw [← chunksExact_drop h16 4, show (16:Nat) * 4 = 64 from by norm_num,
      readRange, List.drop_take]
  have hlen8 : (chunksExact 16 (readRange keccac 64 128)).length = 8 := by
    rw [chunksExact_length h16, hrr]
  have hflatlen : spV.flatten.length = 2 ^ 21 := by
    rw [flatten_length_const hblk, hlen]
    norm_num
  have hchunks : chunksExact 8 spV =
      (chunksExact 128 spV.flatten).map (chunksExact 16) := by
    conv_lhs => rw [← chunksExact_flatten h16 spV hblk]
    exact chunks8_chunks16 16384 _ (by rw [hflatlen]; norm_num)
  have htake4 : (chunksExact 16 (keccac.take 192)).take 4 =
      chunksExact 16 (keccac.take 64) := by
    rw [← chunksExact_take h16 4, show (16:Nat) * 4 = 64 from by norm_num,
      List.take_take]
    norm_num
  simp only [Aesni.finalize_state, Aes.finalize_state]
  rw [hkeys, hf0, hlen8, hchunks,
    implode_fold _ _ _ hrr (fun c hc => chunksExact_mem_length hc),
    htake4, List.flatten_append,
    flatten_chunksExact h16 4 (keccac.take 64) (by rw [List.length_take]; omega),
    flatten_chunksExact h16 8 _ (by
      rw [implode_fold_length _ _ _ hrr])]
  rw [writeRange]
  rw [implode_fold_length _ _ _ hrr]

/-! ## Scratchpad initialisation facts for the full-digest equivalence -/

theorem explode_chunks_length (keys : List (List Nat)) (n : Nat) :
    ∀ (blocks : List Nat), (Aes.explode_chunks keys blocks n).length = n := by
  induction n with
  | zero => intro blocks; rfl
  | succ n ih =>
    intro blocks
    rw [Aes.explode_chunks, List.length_cons, ih]

theorem init_scratchpad_length (keccac sp : List Nat) (hk : keccac.length = 200)
    (hsp : sp.length = 2 ^ 21) :
    (Aes.init_scratchpad keccac sp).length = 2 ^ 21 := by
  have hb : (readRange keccac 64 128).length = 128 := by
    rw [readRange_length]
    omega
  rw [Aes.init_scratchpad, hsp, show (2 ^ 21:Nat) / 128 = 16384 from by norm_num,
    List.length_append, List.length_drop,
    flatten_length_const (explode_chunks_mem_length _ 16384 _ hb),
    explode_chunks_length, hsp]
  norm_num

theorem init_scratchpad_lt (keccac sp : List Nat) (hkb : ∀ x ∈ keccac, x < 256)
    (hk : keccac.length = 200) (hsp : sp.length = 2 ^ 21) :
    ∀ x ∈ Aes.init_scratchpad keccac sp, x < 256 := by
  intro x hx
  rw [Aes.init_scratchpad, hsp, show (2 ^ 21:Nat) / 128 = 16384 from by norm_num,
    show (16384:Nat) * 128 = 2 ^ 21 from by norm_num,
    List.drop_eq_nil_of_le (le_of_eq hsp), List.append_nil] at hx
  obtain ⟨c, hc, hxc⟩ := List.mem_flatten.mp hx
  have hkeys : ∀ k ∈ chunksExact 16 (Aes.derive_key (keccac.take 32)),
      ∀ y ∈ k, y < 256 :=
    fun k hk2 y hy => derive_key_lt _ (fun z hz => hkb z (List.mem_of_mem_take hz))
      y (mem_chunksExact_mem hk2 y hy)
  exact explode_chunks_lt _ hkeys _ _ (fun y hy => hkb y (mem_readRange hy)) c hc x hxc

theorem keccacV_getD (keccac : List Nat) (hk : keccac.length = 200) (i o : Nat)
    (hi : i < 12) (ho : o = 16 * i) :
    (chunksExact 16 (keccac.take 192)).getD i [] = readRange keccac o 16 := by
  subst ho
  rw [chunksExact_getD (by norm_num) i _ (by rw [List.length_take]; omega),
    readRange, List.drop_take, List.take_take]
  congr 1
  omega

theorem goodBlock_readRange (l : List Nat) (i : Nat) (h : i + 16 ≤ l.length)
    (hb : ∀ x ∈ l, x < 256) : GoodBlock (readRange l i 16) :=
  ⟨readRange_length16 l i h, fun x hx => hb x (mem_readRange hx)⟩

/-- Claim C5: for every 200-byte Keccak state (all bytes below 256) and every
2 MiB scratchpad, the accelerated digest path of src/aesni.rs and the portable
U64p digest path of src/aes/mod.rs produce bit-identical output states. -/
theorem claim_C5 (keccac scratchpad : List Nat) (hk : keccac.length = 200)
    (hkb : ∀ x ∈ keccac, x < 256) (hsp : scratchpad.length = 2 ^ 21) :
    Aesni.digest_main keccac scratchpad = Aes.digest_main keccac scratchpad := by
  have h16 : (0:Nat) < 16 := by norm_num
  have hsp1len := init_scratchpad_length keccac scratchpad hk hsp
  have hsp1lt := init_scratchpad_lt keccac scratchpad hkb hk hsp
  have hg0 := keccacV_getD keccac hk 0 0 (by norm_num) (by norm_num)
  have hg1 := keccacV_getD keccac hk 1 16 (by norm_num) (by norm_num)
  have hg2 := keccacV_getD keccac hk 2 32 (by norm_num) (by norm_num)
  have hg3 := keccacV_getD keccac hk 3 48 (by norm_num) (by norm_num)
  have hA : GoodBlock (Aesni.mm_xor (readRange keccac 0 16)
      (readRange keccac 32 16)) :=
    goodBlock_mm_xor _ _ (goodBlock_readRange keccac 0 (by omega) hkb)
      (goodBlock_readRange keccac 32 (by omega) hkb)
  have hB : GoodBlock (Aesni.mm_xor (readRange keccac 16 16)
      (readRange keccac 48 16)) :=
    goodBlock_mm_xor _ _ (goodBlock_readRange keccac 16 (by omega) hkb)
      (goodBlock_readRange keccac 48 (by omega) hkb)
  have hgood : GoodState
      (Aesni.mm_xor (readRange keccac 0 16) (readRange keccac 32 16),
       Aesni.mm_xor (readRange keccac 16 16) (readRange keccac 48 16),
       chunksExact 16 (Aes.init_scratchpad keccac scratchpad)) := by
    refine ⟨hA, hB, ?_, ?_⟩
    · rw [chunksExact_length h16, hsp1len]
      norm_num
    · intro blk hblk
      exact ⟨chunksExact_mem_length hblk,
        fun x hx => hsp1lt x (mem_chunksExact_mem hblk x hx)⟩
  obtain ⟨hloop, hgood2⟩ := aesni_loop_corr Aes.ROUNDS _ _ _ hgood
  have hproj : ∀ (x y : U64p) (z : List U64p), (x, y, z).2.2 = z :=
    fun x y z => rfl
  have eA : Aesni.digest_main keccac scratchpad =
      (Aesni.finalize_state (chunksExact 16 (keccac.take 192))
        ((Aesni.main_loop (chunksExact 16 (keccac.take 192))
          (Aesni.init_scratchpad (chunksExact 16 (keccac.take 192))
            (chunksExact 16 scratchpad))).2.2)).flatten ++ keccac.drop 192 := rfl
  rw [Aesni.main_loop, init_scratchpad_corr keccac scratchpad hk hsp,
    hg0, hg1, hg2, hg3] at eA
  have eP : Aes.digest_main keccac scratchpad =
      Aes.finalize_state keccac
        (Aes.uncast_u64p
          (Aes.main_loop
            (U64p.xor (U64p.ofBytes (readRange keccac 0 16))
              (U64p.ofBytes (readRange keccac 32 16)))
            (U64p.xor (U64p.ofBytes (readRange keccac 16 16))
              (U64p.ofBytes (readRange keccac 48 16)))
            (Aes.cast_u64p (Aes.init_scratchpad keccac scratchpad)))
          (Aes.init_scratchpad keccac scratchpad)) := rfl
  rw [Aes.main_loop, Aes.cast_u64p,
    ← mm_xor_corr (readRange keccac 0 16) (readRange keccac 32 16)
      (readRange_length16 _ _ (by omega)) (readRange_length16 _ _ (by omega))
      (fun c hc => hkb c (mem_readRange hc)) (fun c hc => hkb c (mem_readRange hc)),
    ← mm_xor_corr (readRange keccac 16 16) (readRange keccac 48 16)
      (readRange_length16 _ _ (by omega)) (readRange_length16 _ _ (by omega))
      (fun c hc => hkb c (mem_readRange hc)) (fun c hc => hkb c (mem_readRange hc)),
    hloop, hproj, Aes.uncast_u64p, List.map_map] at eP
  have hround : ((Aesni.main_loop_go Aes.ROUNDS
      (Aesni.mm_xor (readRange keccac 0 16) (readRange keccac 32 16),
       Aesni.mm_xor (readRange keccac 16 16) (readRange keccac 48 16),
       chunksExact 16 (Aes.init_scratchpad keccac scratchpad))).2.2).map (U64p.toBytes ∘ U64p.ofBytes) = (Aesni.main_loop_go Aes.ROUNDS
      (Aesni.mm_xor (readRange keccac 0 16) (readRange keccac 32 16),
       Aesni.mm_xor (readRange keccac 16 16) (readRange keccac 48 16),
       chunksExact 16 (Aes.init_scratchpad keccac scratchpad))).2.2 := by
    have h1 : ((Aesni.main_loop_go Aes.ROUNDS
      (Aesni.mm_xor (readRange keccac 0 16) (readRange keccac 32 16),
       Aesni.mm_xor (readRange keccac 16 16) (readRange keccac 48 16),
       chunksExact 16 (Aes.init_scratchpad keccac scratchpad))).2.2).map (U64p.toBytes ∘ U64p.ofBytes) = ((Aesni.main_loop_go Aes.ROUNDS
      (Aesni.mm_xor (readRange keccac 0 16) (readRange keccac 32 16),
       Aesni.mm_xor (readRange keccac 16 16) (readRange keccac 48 16),
       chunksExact 16 (Aes.init_scratchpad keccac scratchpad))).2.2).map id :=
      List.map_congr_left (fun c hc =>
        toBytes_ofBytes c (hgood2.2.2.2 c hc).1 (hgood2.2.2.2 c hc).2)
    rw [h1, List.map_id]
  rw [hround, hsp1len, show (2 ^ 21:Nat) / 16 * 16 = 2 ^ 21 from by norm_num,
    List.drop_eq_nil_of_le (le_of_eq hsp1len), List.append_nil] at eP
  exact eA.trans ((finalize_state_corr keccac _ hk hgood2.2.2.1
    (fun c hc => (hgood2.2.2.2 c hc).1)).trans eP.symm)

/-- Concrete instance of claim C5 at the all-zero state and scratchpad. -/
theorem claim_C5_witness :
    (List.replicate 200 0).length = 200 ∧
    (List.replicate (2 ^ 21) 0).length = 2 ^ 21 ∧
    Aesni.digest_main (List.replicate 200 0) (List.replicate (2 ^ 21) 0) =
      Aes.digest_main (List.replicate 200 0) (List.replicate (2 ^ 21) 0) :=
  ⟨List.length_replicate _ _, List.length_replicate _ _,
   claim_C5 _ _ (List.length_replicate _ _)
     (fun x hx => by rw [List.eq_of_mem_replicate hx]; omega)
     (List.length_replicate _ _)⟩

end CryptoNight
